import Mathlib

/-!
# Cellar: verification of the core spec claims

Shallow embedding of the safety- and correctness-critical core of the
Cellar game launcher (Rust): archive-path validation and secure
extraction (`src/utils/archive.rs`), the legacy runner install and
download paths (`src/runners/proton.rs`, `src/runners/dxvk.rs`,
`src/runners/common.rs`), the launch-command compiler
(`src/launch/command.rs`), outcome classification
(`src/launch/executor.rs`) and version-key extraction
(`src/cli/commands.rs`).

Modelling conventions:
* machine integers (`u32`, `u64`) are `Nat` with explicit bounds where
  the source can overflow; `f64` version keys are modelled exactly by `ℚ`
  (the source only forms `major + minor/100` from 32-bit values, where
  the ordering facts proved here agree with `f64`);
* filesystem paths are lists of component strings; canonicalization is an
  external oracle passed in as a function, since it depends on the live
  filesystem;
* fallible Rust functions returning `anyhow::Result` become
  `Except String`; error messages are abbreviated;
* `HashMap<String, String>` environments become association lists with
  shadowing insert; only lookup results are observable.
-/

namespace Cellar

/-- Did a `Result`-returning operation fail? -/
def isErr {ε α : Type} : Except ε α → Bool
  | .error _ => true
  | .ok _ => false

/-- Bool substring test: `pat` occurs inside `s` (models Rust
`str::contains` for a string pattern). -/
def strContainsSub (pat s : String) : Bool :=
  decide (pat.toList <:+: s.toList)

/-- Bool char test (models Rust `str::contains(char)`). -/
def strContainsChar (c : Char) (s : String) : Bool :=
  s.toList.contains c

/-! ## Version-key extraction (`src/cli/commands.rs`) -/

/-- Numeric value of an ASCII digit run (how `str::parse` reads the
decimal digits captured by the regex). -/
def digitsToNat (cs : List Char) : Nat :=
  cs.foldl (fun a c => 10 * a + (c.toNat - 48)) 0

/-- `u32::MAX`. -/
def u32max : Nat := 4294967295

/-- Models `captures[i].parse::<u32>().unwrap_or(0)` applied to a digit
run: values beyond `u32::MAX` fail to parse and fall back to `0`. -/
def parseU32orZero (cs : List Char) : Nat :=
  if digitsToNat cs ≤ u32max then digitsToNat cs else 0

/-- The literal part of the regex `GE-Proton(\d+)-(\d+)`. -/
def geProtonPat : List Char := "GE-Proton".toList

/-- Match the regex `GE-Proton(\d+)-(\d+)` anchored at the start of
`cs`, returning the two captured digit runs.  Because the character
after a maximal digit run is never a digit, greedy matching with
backtracking is equivalent to taking the maximal run and requiring the
separating dash. -/
def matchGeProtonAt (cs : List Char) : Option (List Char × List Char) :=
  if geProtonPat.isPrefixOf cs then
    let rest := cs.drop geProtonPat.length
    let d1 := rest.takeWhile Char.isDigit
    if d1.isEmpty then none
    else
      match rest.drop d1.length with
      | '-' :: rest2 =>
        let d2 := rest2.takeWhile Char.isDigit
        if d2.isEmpty then none else some (d1, d2)
      | _ => none
  else none

/-- Leftmost-first search for `GE-Proton(\d+)-(\d+)` (models
`Regex::captures`). -/
def searchGeProton : List Char → Option (List Char × List Char)
  | [] => none
  | c :: rest =>
    match matchGeProtonAt (c :: rest) with
    | some r => some r
    | none => searchGeProton rest

/-- First (leftmost) maximal digit run, models the fallback regex
`(\d+)`; `[]` when the string has no digit. -/
def firstDigitRun : List Char → List Char
  | [] => []
  | c :: rest =>
    if c.isDigit then c :: rest.takeWhile Char.isDigit
    else firstDigitRun rest

/-- `extract_version_number` (`src/cli/commands.rs:800`): sortable key
for a Proton version string.  The `f64` of the source is modelled by
`ℚ`. -/
def extract_version_number (version : String) : ℚ :=
  match searchGeProton version.toList with
  | some (d1, d2) => (parseU32orZero d1 : ℚ) + (parseU32orZero d2 : ℚ) / 100
  | none =>
    match firstDigitRun version.toList with
    | [] => 0
    | run => (digitsToNat run : ℚ)

/-- Comparator used by `get_latest_proton_version`
(`src/cli/commands.rs:650`): `a` precedes `b` when
`extract_version_number b ≤ extract_version_number a`, i.e. the sort is
descending by key (the source sorts with
`version_b.partial_cmp(&version_a)`, which is total here since the keys
are never NaN). -/
def versionAfter (a b : String) : Prop :=
  extract_version_number b ≤ extract_version_number a

instance : DecidableRel versionAfter := fun _ _ =>
  inferInstanceAs (Decidable (_ ≤ _))

/-- Core of `get_latest_proton_version`: stable-sort the discovered
version strings descending by key and take the first. -/
def get_latest_proton_version (versions : List String) : Option String :=
  (versions.insertionSort versionAfter).head?

/-! ## Outcome classification (`src/launch/executor.rs`) -/

/-- ASCII/Unicode lowercasing, models Rust `str::to_lowercase`
(agreeing on the ASCII markers the filter looks for). -/
def toLowerStr (s : String) : String :=
  String.mk (s.toList.map Char.toLower)

/-- All-whitespace test; `s.trim().is_empty()` in the source. -/
def isBlank (s : String) : Bool :=
  s.toList.all Char.isWhitespace

/-- Split a character list at every newline (pieces in order, empty
pieces kept, like `String::split('\n')`). -/
def splitNlAux : List Char → List Char → List (List Char)
  | [], cur => [cur]
  | c :: rest, cur =>
    if c = '\n' then cur :: splitNlAux rest []
    else splitNlAux rest (cur ++ [c])

/-- Strip one trailing carriage return (Rust `str::lines` behaviour). -/
def stripCRchars (cs : List Char) : List Char :=
  if cs.getLast? == some '\r' then cs.dropLast else cs

/-- Models Rust `str::lines`: split on newline, drop the final empty
piece produced by a trailing newline, strip trailing `\r`. -/
def linesOf (s : String) : List String :=
  let parts := splitNlAux s.toList []
  let parts := if parts.getLast? == some [] then parts.dropLast else parts
  parts.map (fun cs => String.mk (stripCRchars cs))

/-- The per-line filter of `handle_command_output`
(`src/launch/executor.rs:277`): a stderr line is a critical error when
it contains an error/failure marker (case-insensitively) and matches no
known-benign diagnostic pattern. -/
def is_critical_line (line : String) : Bool :=
  let line_lower := toLowerStr line
  (strContainsSub "error" line_lower || strContainsSub "failed" line_lower)
    && !strContainsSub "fixme:" line
    && !strContainsSub "err:setupapi:create_dest_file" line
    && !strContainsSub "wine-staging" line
    && !strContainsSub "experimental patches" line
    && !strContainsSub "winediag:" line
    && !strContainsSub "stub" line_lower
    && !isBlank line

/-- `handle_command_output` (`src/launch/executor.rs:268`) after the
child has been awaited: given the exit status and captured stderr,
report failure exactly when the exit was non-zero and a critical stderr
line remains after filtering. -/
def handle_command_output (status_success : Bool) (stderr : String) :
    Except String Unit :=
  if status_success then .ok ()
  else
    let critical := (linesOf stderr).filter is_critical_line
    if critical.isEmpty then .ok ()
    else .error (String.intercalate "\n" critical)

/-! ## Launch configuration (`src/config/game.rs`)

Only the fields read by `CommandBuilder` are modelled; `PathBuf` fields
become strings (the builder only ever converts them with
`to_string_lossy`).  The source field `wine_prefix` is named
`prefixPath` here. -/

structure GameInfo where
  name : String
  executable : String
  prefixPath : String
  proton_version : String
  dxvk_version : Option String
deriving DecidableEq

structure LaunchConfig where
  launch_options : String
  game_args : List String
  gamemode : Bool
  mangohud : Bool
deriving DecidableEq

structure WineConfig where
  esync : Bool
  fsync : Bool
  dxvk : Bool
  dxvk_async : Bool
  large_address_aware : Bool
  wineserver_kill_timeout : Nat
deriving DecidableEq

structure DxvkConfig where
  hud : String
deriving DecidableEq

structure GamescopeConfig where
  enabled : Bool
  width : Nat
  height : Nat
  output_width : Nat
  output_height : Nat
  refresh_rate : Nat
  upscaling : String
  fullscreen : Bool
  force_grab_cursor : Bool
  expose_wayland : Bool
  hdr : Bool
  adaptive_sync : Bool
  immediate_flips : Bool
deriving DecidableEq

structure GameConfig where
  game : GameInfo
  launch : LaunchConfig
  wine_config : WineConfig
  dxvk : DxvkConfig
  gamescope : GamescopeConfig
deriving DecidableEq

/-! ## Launch-command compiler (`src/launch/command.rs`) -/

structure CommandBuilder where
  config : GameConfig
  proton_path : Option String
deriving DecidableEq

structure LaunchCommand where
  command : List String
  environment : List (String × String)
  working_directory : String
deriving DecidableEq

/-- `HashMap::insert`: the new binding shadows any previous one. -/
def envInsert (k v : String) (e : List (String × String)) :
    List (String × String) :=
  (k, v) :: e

/-- Observable lookup on the environment map. -/
def envLookup (k : String) : List (String × String) → Option String
  | [] => none
  | (k2, v) :: rest => if k2 == k then some v else envLookup k rest

/-- `HashMap::extend`: insert every binding of `add` (the added keys are
pairwise distinct in this code, so the iteration order is not
observable). -/
def envExtend (e add : List (String × String)) : List (String × String) :=
  add.foldl (fun acc kv => envInsert kv.1 kv.2 acc) e

/-- `build_base_command` (`src/launch/command.rs:58`). -/
def build_base_command (b : CommandBuilder) : Except String (List String) :=
  match b.proton_path with
  | none => .error "Proton path is required for game launching"
  | some _ =>
    .ok ("umu-run" :: b.config.game.executable :: b.config.launch.game_args)

/-- `build_wine_environment` (`src/launch/command.rs:76`); the source
returns `Result` but never errs. -/
def build_wine_environment (b : CommandBuilder) : List (String × String) :=
  let env : List (String × String) := []
  let env := envInsert "WINEARCH" "win64" env
  let env := envInsert "WINEPREFIX" b.config.game.prefixPath env
  let env := match b.proton_path with
    | some p => envInsert "PROTONPATH" p env
    | none => env
  let env := envInsert "PROTON_VERB" "waitforexitandrun" env
  let env := envInsert "GAMEID" "umu-default" env
  let env := envInsert "HOST_LC_ALL" "en_US.UTF-8" env
  let env := if b.config.wine_config.esync then envInsert "WINEESYNC" "1" env else env
  let env := if b.config.wine_config.fsync then envInsert "WINEFSYNC" "1" env else env
  let env := if b.config.wine_config.large_address_aware then
    envInsert "WINE_LARGE_ADDRESS_AWARE" "1" env else env
  if b.config.wine_config.dxvk then
    envInsert "WINEDLLOVERRIDES" "d3d10core,d3d11,d3d9,dxgi=n,b" env
  else
    envInsert "WINEDLLOVERRIDES" "" env

/-- `build_dxvk_environment` (`src/launch/command.rs:138`). -/
def build_dxvk_environment (b : CommandBuilder) : List (String × String) :=
  if b.config.wine_config.dxvk then
    let env : List (String × String) := []
    let env := if b.config.dxvk.hud ≠ "" then
      envInsert "DXVK_HUD" b.config.dxvk.hud env
    else
      envInsert "DXVK_HUD" "0" env
    let env := if b.config.wine_config.dxvk_async then
      envInsert "DXVK_ASYNC" "1" env else env
    envInsert "DXVK_STATE_CACHE_PATH" (b.config.game.prefixPath ++ "/dxvk_cache") env
  else []

/-- The denylist of `sanitize_token` (`src/launch/command.rs:299`). -/
def dangerous_chars : List Char :=
  ['|', '&', ';', '\x60', '$', '(', ')', '\x7b', '\x7d', '[', ']', '*', '?', '~',
   '\n', '\r', '\t', '\x27', '\x22']

/-- The pattern denylist of `sanitize_token` (`src/launch/command.rs:315`). -/
def dangerous_patterns : List String :=
  ["../", "./", "//", "\\\\", "\n", "\r"]

def hasDangerousChar (token : String) : Bool :=
  dangerous_chars.any (fun c => token.toList.contains c)

def hasDangerousPattern (token : String) : Bool :=
  dangerous_patterns.any (fun p => strContainsSub p token)

/-- `token.starts_with("-")` (the `["-", "--"]` prefix loop of the
source collapses to this single test). -/
def startsWithDash (token : String) : Bool :=
  match token.toList with
  | '-' :: _ => true
  | _ => false

/-- The allowlist of `is_safe_option` (`src/launch/command.rs:355`). -/
def safe_options : List String :=
  ["--fullscreen", "--windowed", "--width", "--height", "--vsync", "--no-vsync",
   "--dlsym",
   "-f", "-w", "-h", "-W", "-H", "-r", "-F", "-S", "-n", "-b",
   "--force-grab-cursor", "--expose-wayland", "--hdr-enabled",
   "--adaptive-sync", "--immediate-flips", "--mangoapp"]

/-- Split a character list at every occurrence of `sep` (pieces in
order, empty pieces kept); models `str::split(sep)`. -/
def splitCharAux (sep : Char) : List Char → List Char → List (List Char)
  | [], cur => [cur]
  | c :: rest, cur =>
    if c = sep then cur :: splitCharAux sep rest []
    else splitCharAux sep rest (cur ++ [c])

/-- Models `str::parse::<i32>().is_ok()`: optional sign, nonempty ASCII
digits, value in `i32` range. -/
def parseI32ok (s : String) : Bool :=
  match s.toList with
  | [] => false
  | c :: rest =>
    let ds := if c = '+' || c = '-' then rest else c :: rest
    !ds.isEmpty && ds.all Char.isDigit &&
      (if c = '-' then digitsToNat ds ≤ 2147483648 else digitsToNat ds ≤ 2147483647)

/-- Models `str::parse::<u32>().is_ok()`: optional `+`, nonempty ASCII
digits, value at most `u32::MAX`. -/
def parseU32ok (cs : List Char) : Bool :=
  match cs with
  | [] => false
  | c :: rest =>
    let ds := if c = '+' then rest else c :: rest
    !ds.isEmpty && ds.all Char.isDigit && digitsToNat ds ≤ u32max

/-- `is_safe_option` (`src/launch/command.rs:353`): allowlisted flag, or
bare `i32`, or a `WIDTHxHEIGHT` resolution pattern. -/
def is_safe_option (option : String) : Bool :=
  safe_options.contains option ||
  parseI32ok option ||
  (option.toList.count 'x' == 1 &&
    (splitCharAux 'x' option.toList []).all parseU32ok)

/-- `sanitize_token` (`src/launch/command.rs:297`). -/
def sanitize_token (token : String) : Except String String :=
  if hasDangerousChar token then
    .error "Dangerous character found in launch option"
  else if hasDangerousPattern token then
    .error "Dangerous pattern found in launch option"
  else if startsWithDash token && token != "%command%" && !is_safe_option token then
    .error "Potentially dangerous option"
  else .ok token

/-- The character loop of `parse_launch_options`
(`src/launch/command.rs:242`): double quotes toggle quoting and are
dropped, an unquoted space ends the current token (which is sanitized
before being kept), every other character is accumulated.  At the end
the last token is sanitized and an unterminated quote is rejected. -/
def parseGo : List Char → List Char → Bool → Except String (List String)
  | [], cur, in_quotes =>
    if cur.isEmpty then
      if in_quotes then .error "Unclosed quote in launch options" else .ok []
    else
      match sanitize_token (String.mk cur) with
      | .error e => .error e
      | .ok t =>
        if in_quotes then .error "Unclosed quote in launch options" else .ok [t]
  | c :: rest, cur, in_quotes =>
    if c == '\x22' then parseGo rest cur (!in_quotes)
    else if c == ' ' && !in_quotes then
      if cur.isEmpty then parseGo rest cur in_quotes
      else
        match sanitize_token (String.mk cur) with
        | .error e => .error e
        | .ok t =>
          match parseGo rest [] in_quotes with
          | .error e => .error e
          | .ok ts => .ok (t :: ts)
    else parseGo rest (cur ++ [c]) in_quotes

/-- `parse_launch_options` (`src/launch/command.rs:242`). -/
def parse_launch_options (launch_options : String) : Except String (List String) :=
  parseGo launch_options.toList [] false

/-- The `%command%` splice loop of `process_launch_options`
(`src/launch/command.rs:205`): replace the placeholder by the whole base
command, error on a second occurrence, append the base command at the
end when no placeholder occurred. -/
def replaceCommandGo (base_command : List String) :
    List String → Bool → Except String (List String)
  | [], found => .ok (if found then [] else base_command)
  | t :: rest, found =>
    if t == "%command%" then
      if found then .error "Multiple %command% placeholders found"
      else
        match replaceCommandGo base_command rest true with
        | .error e => .error e
        | .ok ts => .ok (base_command ++ ts)
    else
      match replaceCommandGo base_command rest found with
      | .error e => .error e
      | .ok ts => .ok (t :: ts)

/-- `wrap_with_mangohud` (`src/launch/command.rs:403`): prepend
`mangohud` unless disabled or gamescope is enabled. -/
def wrap_with_mangohud (b : CommandBuilder) (command : List String) :
    Except String (List String) :=
  if !b.config.launch.mangohud || b.config.gamescope.enabled then .ok command
  else .ok ("mangohud" :: command)

/-- The upscaling match of `wrap_with_gamescope`
(`src/launch/command.rs:454`). -/
def upscalingFlags : String → Except String (List String)
  | "fsr" => .ok ["-F", "fsr"]
  | "nis" => .ok ["-F", "nis"]
  | "integer" => .ok ["-S", "integer"]
  | "stretch" => .ok ["-S", "stretch"]
  | "linear" => .ok ["-n"]
  | "nearest" => .ok ["-b"]
  | "off" => .ok []
  | _ => .error "Invalid upscaling method"

/-- The flag list `wrap_with_gamescope` builds between the `gamescope`
binary and the `--` separator (`src/launch/command.rs:429`). -/
def gamescope_flags (b : CommandBuilder) : Except String (List String) :=
  match upscalingFlags b.config.gamescope.upscaling with
  | .error e => .error e
  | .ok upflags =>
    .ok (["-w", toString b.config.gamescope.width,
          "-h", toString b.config.gamescope.height,
          "-W", toString b.config.gamescope.output_width,
          "-H", toString b.config.gamescope.output_height,
          "-r", toString b.config.gamescope.refresh_rate] ++ upflags ++
      (if b.config.gamescope.fullscreen then ["-f"] else []) ++
      (if b.config.gamescope.force_grab_cursor then ["--force-grab-cursor"] else []) ++
      (if b.config.gamescope.expose_wayland then ["--expose-wayland"] else []) ++
      (if b.config.gamescope.hdr then ["--hdr-enabled"] else []) ++
      (if b.config.gamescope.adaptive_sync then ["--adaptive-sync"] else []) ++
      (if b.config.gamescope.immediate_flips then ["--immediate-flips"] else []) ++
      (if b.config.launch.mangohud then ["--mangoapp"] else []))

/-- `wrap_with_gamescope` (`src/launch/command.rs:429`). -/
def wrap_with_gamescope (b : CommandBuilder) (command : List String) :
    Except String (List String) :=
  if !b.config.gamescope.enabled then .ok command
  else
    match gamescope_flags b with
    | .error e => .error e
    | .ok flags => .ok ("gamescope" :: flags ++ ["--"] ++ command)

/-- `wrap_with_gamemode` (`src/launch/command.rs:531`). -/
def wrap_with_gamemode (b : CommandBuilder) (command : List String) :
    Except String (List String) :=
  if !b.config.launch.gamemode then .ok command
  else .ok ("gamemoderun" :: command)

/-- The fixed wrapper pipeline: mangohud first (innermost), then
gamescope, then gamemode (outermost), as in both exit paths of
`process_launch_options`. -/
def wrapAll (b : CommandBuilder) (command : List String) :
    Except String (List String) :=
  match wrap_with_mangohud b command with
  | .error e => .error e
  | .ok c1 =>
    match wrap_with_gamescope b c1 with
    | .error e => .error e
    | .ok c2 => wrap_with_gamemode b c2

/-- `process_launch_options` (`src/launch/command.rs:183`). -/
def process_launch_options (b : CommandBuilder) (base_command : List String) :
    Except String (List String) :=
  if b.config.launch.launch_options = "" then wrapAll b base_command
  else
    match parse_launch_options b.config.launch.launch_options with
    | .error e => .error e
    | .ok tokens =>
      match replaceCommandGo base_command tokens false with
      | .error e => .error e
      | .ok final_command => wrapAll b final_command

/-- `CommandBuilder::build` (`src/launch/command.rs:37`). -/
def build (b : CommandBuilder) : Except String LaunchCommand :=
  match build_base_command b with
  | .error e => .error e
  | .ok base_command =>
    let env_vars := envExtend (build_wine_environment b) (build_dxvk_environment b)
    match process_launch_options b base_command with
    | .error e => .error e
    | .ok final_command =>
      .ok { command := final_command, environment := env_vars,
            working_directory := b.config.game.prefixPath }

/-- Every token a wrapper stage can introduce (wrapper binaries, fixed
flags, the separator, and the gamescope numerals derived from the
configuration). -/
def wrapperTokens (b : CommandBuilder) : List String :=
  ["mangohud", "gamemoderun", "gamescope", "--"] ++
  ["-w", toString b.config.gamescope.width, "-h", toString b.config.gamescope.height,
   "-W", toString b.config.gamescope.output_width,
   "-H", toString b.config.gamescope.output_height,
   "-r", toString b.config.gamescope.refresh_rate] ++
  ["-F", "fsr", "nis", "-S", "integer", "stretch", "-n", "-b"] ++
  ["-f", "--force-grab-cursor", "--expose-wayland", "--hdr-enabled",
   "--adaptive-sync", "--immediate-flips", "--mangoapp"]

/-- A concrete configuration (the repository's own test fixture from
`src/launch/command.rs`, defaults as in `src/config/game.rs`), used to
instantiate the universally quantified theorems. -/
def testConfig : GameConfig :=
  { game := { name := "Test Game", executable := "/path/to/game.exe",
              prefixPath := "/path/to/prefix", proton_version := "GE-Proton8-32",
              dxvk_version := none },
    launch := { launch_options := "", game_args := ["--windowed", "--dx11"],
                gamemode := false, mangohud := false },
    wine_config := { esync := true, fsync := true, dxvk := true, dxvk_async := true,
                     large_address_aware := false, wineserver_kill_timeout := 5 },
    dxvk := { hud := "" },
    gamescope := { enabled := false, width := 1920, height := 1080,
                   output_width := 1920, output_height := 1080, refresh_rate := 60,
                   upscaling := "fsr", fullscreen := true, force_grab_cursor := false,
                   expose_wayland := false, hdr := false, adaptive_sync := false,
                   immediate_flips := false } }

/-- The command `build` compiles from `testConfig` with Proton path
`/path/to/proton`. -/
def testLaunchCommand : LaunchCommand :=
  { command := ["umu-run", "/path/to/game.exe", "--windowed", "--dx11"],
    environment :=
      [("DXVK_HUD", "0"), ("DXVK_ASYNC", "1"),
       ("DXVK_STATE_CACHE_PATH", "/path/to/prefix/dxvk_cache"),
       ("WINEDLLOVERRIDES", "d3d10core,d3d11,d3d9,dxgi=n,b"),
       ("WINEFSYNC", "1"), ("WINEESYNC", "1"),
       ("HOST_LC_ALL", "en_US.UTF-8"), ("GAMEID", "umu-default"),
       ("PROTON_VERB", "waitforexitandrun"), ("PROTONPATH", "/path/to/proton"),
       ("WINEPREFIX", "/path/to/prefix"), ("WINEARCH", "win64")],
    working_directory := "/path/to/prefix" }

/-- Number of double quotes, for the unterminated-quote analysis. -/
def countQuotes (s : String) : Nat :=
  s.toList.count '\x22'

/-! ## Archive path validation (`src/utils/archive.rs`) -/

/-- A component of an archive entry path, as produced by Rust
`Path::components`: a normal name, `.`, `..`, a root separator, or a
Windows drive prefix. -/
inductive PathComponent where
  | normal (s : String)
  | curDir
  | parentDir
  | rootDir
  | drive
deriving DecidableEq

/-- The component loop of `validate_archive_path`
(`src/utils/archive.rs:10`): keep normal components, skip `.`, abort on
`..`, a root, or a drive prefix. -/
def normalizeComponents : List PathComponent → Except String (List String)
  | [] => .ok []
  | .normal s :: rest =>
    match normalizeComponents rest with
    | .error e => .error e
    | .ok ns => .ok (s :: ns)
  | .curDir :: rest => normalizeComponents rest
  | .parentDir :: _ => .error "Path traversal attempt detected"
  | .rootDir :: _ => .error "Absolute path not allowed in archive"
  | .drive :: _ => .error "Path prefix not allowed in archive"

/-- `to_string_lossy` of the normalized relative path: names joined
with `/`. -/
def joinSlash : List String → List Char
  | [] => []
  | [p] => p.toList
  | p :: ps => p.toList ++ '/' :: joinSlash ps

/-- The `path_str` pattern denylist of `validate_archive_path`
(`src/utils/archive.rs:43`). -/
def suspiciousPath (cs : List Char) : Bool :=
  decide ("..".toList <:+: cs) ||
  (match cs with | '/' :: _ => true | _ => false) ||
  (match cs with | '\x5c' :: _ => true | _ => false) ||
  cs.contains '\x00' ||
  cs.contains '\x5c' ||
  decide (".\x5c".toList <:+: cs) ||
  decide ("./".toList <:+: cs) ||
  decide (":\x5c".toList <:+: cs)

/-- The destination-prefix check both canonicalization attempts of
`validate_archive_path` end with (`src/utils/archive.rs:62`). -/
def checkDest (canon : List String → Option (List String))
    (destination : List String) (canonical final_path : List String) :
    Except String (List String) :=
  match canon destination with
  | none => .error "Failed to canonicalize destination"
  | some canonical_dest =>
    if canonical_dest.isPrefixOf canonical then .ok final_path
    else .error "Path escapes destination directory"

/-- The canonicalize-and-check tail of `validate_archive_path`: first
attempt under `canonB`; on failure the parents are created (modelled as
succeeding) and the attempt is repeated under `canonA`. -/
def validateCanonical (canonB canonA : List String → Option (List String))
    (final_path destination : List String) : Except String (List String) :=
  match canonB final_path with
  | some canonical => checkDest canonB destination canonical final_path
  | none =>
    if final_path.isEmpty then .error "Final path has no parent"
    else
      match canonA final_path with
      | some canonical => checkDest canonA destination canonical final_path
      | none => .error "Failed to canonicalize path after creating parents"

/-- `validate_archive_path` (`src/utils/archive.rs:6`).  Absolute
filesystem paths are component lists; canonicalization is an oracle:
`canonB` is the filesystem state of the first attempt, `canonA` the
state after `create_dir_all` on the parent. -/
def validate_archive_path (canonB canonA : List String → Option (List String))
    (entry_path : List PathComponent) (destination : List String) :
    Except String (List String) :=
  match normalizeComponents entry_path with
  | .error e => .error e
  | .ok normalized =>
    if suspiciousPath (joinSlash normalized) then
      .error "Suspicious path pattern detected"
    else validateCanonical canonB canonA (destination ++ normalized) destination

/-! ## Secure extraction (`src/utils/archive.rs`) -/

inductive TarEntryType where
  | file
  | dir
  | other
deriving DecidableEq

/-- A parsed tar entry: its path, the declared size from the header,
and its type. -/
structure TarEntry where
  path : List PathComponent
  size : Nat
  etype : TarEntryType
deriving DecidableEq

/-- A parsed zip entry (`is_dir` from the central directory). -/
structure ZipEntry where
  path : List PathComponent
  size : Nat
  is_dir : Bool
deriving DecidableEq

/-- `u64::MAX`. -/
def u64max : Nat := 18446744073709551615

/-- `u64::saturating_add`. -/
def satAdd64 (a b : Nat) : Nat := min (a + b) u64max

/-- The mutable state of an extraction loop: the incremented entry
count, the saturating size accumulator, and the paths materialized in
the destination so far. -/
structure ExtractState where
  file_count : Nat
  total_size : Nat
  extracted : List (List String)
deriving DecidableEq

/-- One iteration of the entry loop of `extract_tar_gz_secure`
(`src/utils/archive.rs:135`): bump and check the file count, accumulate
and check the declared size, validate the path, then materialize the
entry (files and directories; other types are skipped). -/
def tarStep (canonB canonA : List String → Option (List String))
    (destination : List String) (max_files max_total_size : Nat)
    (st : ExtractState) (entry : TarEntry) : Except String ExtractState :=
  if st.file_count + 1 > max_files then .error "Archive contains too many files"
  else if satAdd64 st.total_size entry.size > max_total_size then
    .error "Archive total size exceeds limit"
  else
    match validate_archive_path canonB canonA entry.path destination with
    | .error e => .error e
    | .ok safe_path =>
      match entry.etype with
      | .file => .ok { file_count := st.file_count + 1,
                       total_size := satAdd64 st.total_size entry.size,
                       extracted := st.extracted ++ [safe_path] }
      | .dir => .ok { file_count := st.file_count + 1,
                      total_size := satAdd64 st.total_size entry.size,
                      extracted := st.extracted ++ [safe_path] }
      | .other => .ok { file_count := st.file_count + 1,
                        total_size := satAdd64 st.total_size entry.size,
                        extracted := st.extracted }

/-- The entry loop; on abort the state reached so far is returned with
the error message. -/
def tarLoop (canonB canonA : List String → Option (List String))
    (destination : List String) (max_files max_total_size : Nat) :
    List TarEntry → ExtractState → ExtractState × Option String
  | [], st => (st, none)
  | e :: rest, st =>
    match tarStep canonB canonA destination max_files max_total_size st e with
    | .error msg => (st, some msg)
    | .ok st2 => tarLoop canonB canonA destination max_files max_total_size rest st2

/-- `extract_tar_gz_secure` (`src/utils/archive.rs:114`): the first
component is the filesystem outcome, the second the returned error (if
any). -/
def extract_tar_gz_secure (canonB canonA : List String → Option (List String))
    (destination : List String) (max_files max_total_size : Nat)
    (entries : List TarEntry) : ExtractState × Option String :=
  tarLoop canonB canonA destination max_files max_total_size entries
    { file_count := 0, total_size := 0, extracted := [] }

/-- One iteration of the entry loop of `extract_zip_secure`
(`src/utils/archive.rs:207`): accumulate and check the declared size,
validate the path, materialize (directory or file). -/
def zipStep (canonB canonA : List String → Option (List String))
    (destination : List String) (max_total_size : Nat)
    (st : ExtractState) (entry : ZipEntry) : Except String ExtractState :=
  if satAdd64 st.total_size entry.size > max_total_size then
    .error "Archive total size exceeds limit"
  else
    match validate_archive_path canonB canonA entry.path destination with
    | .error e => .error e
    | .ok safe_path =>
      .ok { file_count := st.file_count,
            total_size := satAdd64 st.total_size entry.size,
            extracted := st.extracted ++ [safe_path] }

def zipLoop (canonB canonA : List String → Option (List String))
    (destination : List String) (max_total_size : Nat) :
    List ZipEntry → ExtractState → ExtractState × Option String
  | [], st => (st, none)
  | e :: rest, st =>
    match zipStep canonB canonA destination max_total_size st e with
    | .error msg => (st, some msg)
    | .ok st2 => zipLoop canonB canonA destination max_total_size rest st2

/-- `extract_zip_secure` (`src/utils/archive.rs:180`): the entry count
is checked up front against `archive.len()`, before anything is
extracted. -/
def extract_zip_secure (canonB canonA : List String → Option (List String))
    (destination : List String) (max_files max_total_size : Nat)
    (entries : List ZipEntry) : ExtractState × Option String :=
  let file_count := entries.length
  if file_count > max_files then
    ({ file_count := 0, total_size := 0, extracted := [] },
     some "Archive contains too many files")
  else
    zipLoop canonB canonA destination max_total_size entries
      { file_count := 0, total_size := 0, extracted := [] }

/-! ## Legacy runner installation (`src/runners/proton.rs`,
`src/runners/dxvk.rs`)

`extract_proton` and `extract_dxvk` do not call the secure extractor:
they hand the whole archive to `tar::Archive::unpack` from the `tar`
crate and then move the first unpacked subdirectory into place. -/

/-- Model of `tar::Entry::unpack_in` of the `tar` crate (the dependency
the legacy extractors delegate to), per its documented behaviour: root,
drive and `.` components are dropped; an entry whose path contains a
`..` component is silently SKIPPED (`unpack_in` returns `Ok(false)`,
extraction continues) — it is not an error; any other entry is
materialized under the accumulated destination. -/
def tarUnpackDestGo : List String → List PathComponent → Option (List String)
  | acc, [] => some acc
  | acc, .normal s :: rest => tarUnpackDestGo (acc ++ [s]) rest
  | _, .parentDir :: _ => none
  | acc, .curDir :: rest => tarUnpackDestGo acc rest
  | acc, .rootDir :: rest => tarUnpackDestGo acc rest
  | acc, .drive :: rest => tarUnpackDestGo acc rest

/-- `tar::Archive::unpack dst`: materialize every non-skipped entry. -/
def tarUnpack (dst : List String) (entries : List (List PathComponent)) :
    List (List String) :=
  entries.filterMap (tarUnpackDestGo dst)

/-- `extract_proton` (`src/runners/proton.rs:179`): unpack the archive
with the tar crate into a temp directory — performing no per-entry
validation of its own — then move the contents of the first unpacked
top-level directory into `runners/proton/{version}`.  Returns the
destination path together with the destination-relative paths of the
files installed there.  `read_dir` order is modelled as first-appearance
order, and the `is_dir` test as "has children" (a childless first entry
moves nothing either way). -/
def extract_proton (runnersPath : List String) (version : String)
    (archive : List (List PathComponent)) :
    Except String (List String × List (List String)) :=
  let extract_path := runnersPath ++ ["proton", version]
  let temp : List String := ["tmp", "proton-extract-" ++ version]
  let unpacked := tarUnpack temp archive
  let rels := unpacked.map (fun p => p.drop temp.length)
  let moved := match (rels.filterMap List.head?).head? with
    | none => []
    | some t =>
      (rels.filter (fun r => r.head? == some t && decide (2 ≤ r.length))).map List.tail
  .ok (extract_path, moved)

/-- `extract_dxvk` (`src/runners/dxvk.rs:159`): identical shape, with
destination `dxvk/v{version}`. -/
def extract_dxvk (runnersPath : List String) (version : String)
    (archive : List (List PathComponent)) :
    Except String (List String × List (List String)) :=
  let extract_path := runnersPath ++ ["dxvk", "v" ++ version]
  let temp : List String := ["tmp", "dxvk-extract-" ++ version]
  let unpacked := tarUnpack temp archive
  let rels := unpacked.map (fun p => p.drop temp.length)
  let moved := match (rels.filterMap List.head?).head? with
    | none => []
    | some t =>
      (rels.filter (fun r => r.head? == some t && decide (2 ≤ r.length))).map List.tail
  .ok (extract_path, moved)

/-! ## Release download (`src/runners/common.rs`, `src/runners/proton.rs`) -/

structure GitHubAsset where
  name : String
  browser_download_url : String
  size : Nat
deriving DecidableEq

structure GitHubRelease where
  tag_name : String
  name : String
  assets : List GitHubAsset
deriving DecidableEq

/-- The observable outcome of the asset-body request: HTTP status, the
optional Content-Length header, and the number of body bytes actually
received. -/
structure DownloadTransport where
  status_success : Bool
  content_length : Option Nat
  body_len : Nat
deriving DecidableEq

/-- `str::ends_with`. -/
def strEndsWith (pat s : String) : Bool :=
  decide (pat.toList <:+ s.toList)

/-- The content-length comparison of `download_from_github`
(`src/runners/common.rs:136`). -/
def contentLengthMismatch (t : DownloadTransport) (expected : Nat) : Bool :=
  match t.content_length with
  | some cl => decide (cl ≠ expected)
  | none => false

/-- `download_from_github` (`src/runners/common.rs:89`) after the
release metadata has been fetched: select the asset by the configured
filter, reject if it exceeds the ceiling, reject a failed transfer or a
content-length mismatch, receive the body and reject a byte-count
mismatch — only then is the temporary file written (returned as
`(name, bytes)`). -/
def download_from_github (max_download_size : Nat)
    (asset_filter : String → Bool) (release : GitHubRelease)
    (transport : DownloadTransport) : Except String (String × Nat) :=
  match release.assets.find? (fun a => asset_filter a.name) with
  | none => .error "No suitable asset found"
  | some asset =>
    if asset.size > max_download_size then .error "Asset too large"
    else if !transport.status_success then .error "Failed to download"
    else if contentLengthMismatch transport asset.size then
      .error "Content length mismatch"
    else if transport.body_len ≠ asset.size then .error "Downloaded size mismatch"
    else .ok (asset.name, transport.body_len)

/-- `download_ge_proton` (`src/runners/proton.rs:135`) after the
release metadata has been fetched: select the `.tar.gz` asset and write
whatever body was received with NO size-ceiling, content-length, or
byte-count verification. -/
def download_ge_proton (release : GitHubRelease)
    (transport : DownloadTransport) : Except String (String × Nat) :=
  match release.assets.find? (fun a => strEndsWith ".tar.gz" a.name) with
  | none => .error "No tar.gz asset found"
  | some asset =>
    if !transport.status_success then .error "Failed to download"
    else .ok (asset.name, transport.body_len)

/-! ## Helper lemmas on lists and strings -/

theorem takeWhile_eq_self_of_all {p : Char → Bool} {l : List Char}
    (h : ∀ c ∈ l, p c = true) : l.takeWhile p = l := by
  induction l with
  | nil => rfl
  | cons a as ih =>
    simp only [List.takeWhile_cons, h a (List.mem_cons_self a as), if_true]
    exact congrArg (a :: ·) (ih fun c hc => h c (List.mem_cons_of_mem a hc))

theorem takeWhile_append_stop {p : Char → Bool} {l₁ l₂ : List Char} {x : Char}
    (h₁ : ∀ c ∈ l₁, p c = true) (hx : p x = false) :
    (l₁ ++ x :: l₂).takeWhile p = l₁ := by
  induction l₁ with
  | nil => simp [List.takeWhile_cons, hx]
  | cons a as ih =>
    simp only [List.cons_append, List.takeWhile_cons,
      h₁ a (List.mem_cons_self a as), if_true]
    exact congrArg (a :: ·) (ih fun c hc => h₁ c (List.mem_cons_of_mem a hc))

theorem isPrefixOf_append_self (l r : List Char) :
    l.isPrefixOf (l ++ r) = true := by
  induction l with
  | nil => simp [List.isPrefixOf]
  | cons a as ih => simp [List.isPrefixOf, ih]

theorem mem_ite_nil {α : Type} {c : Prop} [Decidable c] {t : α} {l : List α}
    (h : t ∈ (if c then l else [])) : t ∈ l := by
  by_cases hc : c
  · rwa [if_pos hc] at h
  · rw [if_neg hc] at h
    exact absurd h (List.not_mem_nil t)

/-! ## Lemmas about the sanitizer and the tokenizer -/

theorem sanitize_token_ok {x t : String} (h : sanitize_token x = .ok t) :
    t = x ∧ hasDangerousChar t = false ∧ hasDangerousPattern t = false ∧
      (startsWithDash t = true → t ≠ "%command%" → is_safe_option t = true) := by
  unfold sanitize_token at h
  by_cases h1 : hasDangerousChar x = true
  · rw [if_pos h1] at h
    exact absurd h (by simp)
  · rw [if_neg h1] at h
    by_cases h2 : hasDangerousPattern x = true
    · rw [if_pos h2] at h
      exact absurd h (by simp)
    · rw [if_neg h2] at h
      by_cases h3 : (startsWithDash x && x != "%command%" && !is_safe_option x) = true
      · rw [if_pos h3] at h
        exact absurd h (by simp)
      · rw [if_neg h3] at h
        injection h with hxt
        subst hxt
        refine ⟨rfl, by simpa using h1, by simpa using h2, ?_⟩
        intro hd hne
        by_cases hs : is_safe_option x = true
        · exact hs
        · exact absurd (by simp [hd, hne, hs]) h3

theorem sanitize_token_err_of_char {t : String} (h : hasDangerousChar t = true) :
    isErr (sanitize_token t) = true := by
  unfold sanitize_token
  rw [if_pos h]
  rfl

theorem sanitize_token_err_of_option {t : String} (hd : startsWithDash t = true)
    (hne : t ≠ "%command%") (hs : is_safe_option t = false) :
    isErr (sanitize_token t) = true := by
  unfold sanitize_token
  by_cases h1 : hasDangerousChar t = true
  · rw [if_pos h1]; rfl
  · rw [if_neg h1]
    by_cases h2 : hasDangerousPattern t = true
    · rw [if_pos h2]; rfl
    · rw [if_neg h2]
      rw [if_pos (by simp [hd, hne, hs])]
      rfl

theorem parseGo_ok_sanitized :
    ∀ (cs cur : List Char) (inq : Bool) (ts : List String),
      parseGo cs cur inq = .ok ts → ∀ t ∈ ts, ∃ x, sanitize_token x = .ok t := by
  intro cs
  induction cs with
  | nil =>
    intro cur inq ts h t ht
    unfold parseGo at h
    by_cases hc : cur.isEmpty = true
    · rw [if_pos hc] at h
      cases inq with
      | true => exact absurd h (by simp)
      | false =>
        injection h with h2
        rw [← h2] at ht
        exact absurd ht (List.not_mem_nil t)
    · rw [if_neg hc] at h
      cases hs : sanitize_token (String.mk cur) with
      | error e => rw [hs] at h; exact absurd h (by simp)
      | ok t0 =>
        rw [hs] at h
        cases inq with
        | true => exact absurd h (by simp)
        | false =>
          injection h with h2
          rw [← h2] at ht
          rcases List.mem_singleton.mp ht with rfl
          exact ⟨String.mk cur, hs⟩
  | cons c rest ih =>
    intro cur inq ts h t ht
    unfold parseGo at h
    by_cases hq : (c == '\x22') = true
    · rw [if_pos hq] at h
      exact ih cur (!inq) ts h t ht
    · rw [if_neg hq] at h
      by_cases hsp : (c == ' ' && !inq) = true
      · rw [if_pos hsp] at h
        by_cases hc : cur.isEmpty = true
        · rw [if_pos hc] at h
          exact ih cur inq ts h t ht
        · rw [if_neg hc] at h
          cases hs : sanitize_token (String.mk cur) with
          | error e => rw [hs] at h; exact absurd h (by simp)
          | ok t0 =>
            rw [hs] at h
            cases hrec : parseGo rest [] inq with
            | error e => rw [hrec] at h; exact absurd h (by simp)
            | ok ts0 =>
              rw [hrec] at h
              injection h with h2
              rw [← h2] at ht
              rcases List.mem_cons.mp ht with rfl | htl
              · exact ⟨String.mk cur, hs⟩
              · exact ih [] inq ts0 hrec t htl
      · rw [if_neg hsp] at h
        exact ih (cur ++ [c]) inq ts h t ht

theorem parseGo_ok_even :
    ∀ (cs cur : List Char) (inq : Bool) (ts : List String),
      parseGo cs cur inq = .ok ts →
      (cs.count '\x22' + (if inq then 1 else 0)) % 2 = 0 := by
  intro cs
  induction cs with
  | nil =>
    intro cur inq ts h
    cases inq with
    | true =>
      exfalso
      unfold parseGo at h
      by_cases hc : cur.isEmpty = true
      · rw [if_pos hc] at h; exact absurd h (by simp)
      · rw [if_neg hc] at h
        cases hs : sanitize_token (String.mk cur) with
        | error e => rw [hs] at h; exact absurd h (by simp)
        | ok t0 => rw [hs] at h; exact absurd h (by simp)
    | false => simp
  | cons c rest ih =>
    intro cur inq ts h
    unfold parseGo at h
    by_cases hq : (c == '\x22') = true
    · rw [if_pos hq] at h
      have heq : c = '\x22' := by simpa using hq
      have hcnt : (c :: rest).count '\x22' = rest.count '\x22' + 1 := by
        rw [heq]; exact List.count_cons_self _ _
      have hrec := ih cur (!inq) ts h
      rw [hcnt]
      cases inq with
      | true => simp at hrec ⊢; omega
      | false => simp at hrec ⊢; omega
    · rw [if_neg hq] at h
      have hne : c ≠ '\x22' := by simpa using hq
      have hcnt : (c :: rest).count '\x22' = rest.count '\x22' :=
        List.count_cons_of_ne (Ne.symm hne) _
      rw [hcnt]
      by_cases hsp : (c == ' ' && !inq) = true
      · rw [if_pos hsp] at h
        by_cases hc : cur.isEmpty = true
        · rw [if_pos hc] at h
          exact ih cur inq ts h
        · rw [if_neg hc] at h
          cases hs : sanitize_token (String.mk cur) with
          | error e => rw [hs] at h; exact absurd h (by simp)
          | ok t0 =>
            rw [hs] at h
            cases hrec : parseGo rest [] inq with
            | error e => rw [hrec] at h; exact absurd h (by simp)
            | ok ts0 => exact ih [] inq ts0 hrec
      · rw [if_neg hsp] at h
        exact ih (cur ++ [c]) inq ts h

theorem parse_launch_options_err_of_odd {s : String}
    (h : countQuotes s % 2 = 1) : isErr (parse_launch_options s) = true := by
  unfold parse_launch_options
  cases hp : parseGo s.toList [] false with
  | error e => rfl
  | ok ts =>
    exfalso
    have heven := parseGo_ok_even s.toList [] false ts hp
    simp only [if_neg (by simp : ¬(false = true))] at heven
    unfold countQuotes at h
    omega

/-! ## Lemmas about the placeholder splice -/

theorem replaceGo_not_found (base : List String) :
    ∀ ts : List String, ts.count "%command%" = 0 →
      replaceCommandGo base ts false = .ok (ts ++ base) := by
  intro ts
  induction ts with
  | nil => intro _; rfl
  | cons t rest ih =>
    intro h
    have hne : t ≠ "%command%" := by
      intro rfl2
      rw [rfl2, List.count_cons_self] at h
      omega
    have hrest : rest.count "%command%" = 0 := by
      rw [List.count_cons_of_ne (Ne.symm hne)] at h
      exact h
    unfold replaceCommandGo
    rw [if_neg (by simpa using hne)]
    rw [ih hrest]
    rfl

theorem replaceGo_after_found (base : List String) :
    ∀ ts : List String, "%command%" ∉ ts →
      replaceCommandGo base ts true = .ok ts := by
  intro ts
  induction ts with
  | nil => intro _; rfl
  | cons t rest ih =>
    intro h
    have hne : t ≠ "%command%" := fun heq => h (heq ▸ List.mem_cons_self t rest)
    have hrest : "%command%" ∉ rest := fun hm => h (List.mem_cons_of_mem t hm)
    unfold replaceCommandGo
    rw [if_neg (by simpa using hne)]
    rw [ih hrest]

theorem replaceGo_single (base : List String) :
    ∀ pre post : List String, "%command%" ∉ pre → "%command%" ∉ post →
      replaceCommandGo base (pre ++ "%command%" :: post) false =
        .ok (pre ++ base ++ post) := by
  intro pre
  induction pre with
  | nil =>
    intro post _ hpost
    show replaceCommandGo base ("%command%" :: post) false = _
    unfold replaceCommandGo
    rw [if_pos (by simp)]
    rw [replaceGo_after_found base post hpost]
    simp
  | cons p pre' ih =>
    intro post hpre hpost
    have hne : p ≠ "%command%" := fun heq => hpre (heq ▸ List.mem_cons_self p pre')
    have hpre' : "%command%" ∉ pre' := fun hm => hpre (List.mem_cons_of_mem p hm)
    show replaceCommandGo base (p :: (pre' ++ "%command%" :: post)) false = _
    unfold replaceCommandGo
    rw [if_neg (by simpa using hne)]
    rw [ih post hpre' hpost]
    rfl

theorem replaceGo_found_err (base : List String) :
    ∀ ts : List String, 1 ≤ ts.count "%command%" →
      isErr (replaceCommandGo base ts true) = true := by
  intro ts
  induction ts with
  | nil => intro h; simp at h
  | cons t rest ih =>
    intro h
    by_cases hne : t = "%command%"
    · unfold replaceCommandGo
      rw [if_pos (by simp [hne])]
      rfl
    · have hrest : 1 ≤ rest.count "%command%" := by
        rw [List.count_cons_of_ne (Ne.symm hne)] at h
        exact h
      unfold replaceCommandGo
      rw [if_neg (by simpa using hne)]
      cases hrec : replaceCommandGo base rest true with
      | error e => rfl
      | ok ts0 =>
        have := ih hrest
        rw [hrec] at this
        exact absurd this (by simp [isErr])

theorem replaceGo_dup_err (base : List String) :
    ∀ ts : List String, 2 ≤ ts.count "%command%" →
      isErr (replaceCommandGo base ts false) = true := by
  intro ts
  induction ts with
  | nil => intro h; simp at h
  | cons t rest ih =>
    intro h
    by_cases hne : t = "%command%"
    · have hrest : 1 ≤ rest.count "%command%" := by
        rw [hne, List.count_cons_self] at h
        omega
      unfold replaceCommandGo
      rw [if_pos (by simp [hne])]
      cases hrec : replaceCommandGo base rest true with
      | error e => rfl
      | ok ts0 =>
        have := replaceGo_found_err base rest hrest
        rw [hrec] at this
        exact absurd this (by simp [isErr])
    · have hrest : 2 ≤ rest.count "%command%" := by
        rw [List.count_cons_of_ne (Ne.symm hne)] at h
        exact h
      unfold replaceCommandGo
      rw [if_neg (by simpa using hne)]
      cases hrec : replaceCommandGo base rest false with
      | error e => rfl
      | ok ts0 =>
        have := ih hrest
        rw [hrec] at this
        exact absurd this (by simp [isErr])

theorem replaceGo_ok_mem (base : List String) :
    ∀ (ts : List String) (found : Bool) (out : List String),
      replaceCommandGo base ts found = .ok out →
      ∀ t ∈ out, t ∈ ts ∨ t ∈ base := by
  intro ts
  induction ts with
  | nil =>
    intro found out h t ht
    unfold replaceCommandGo at h
    injection h with h2
    rw [← h2] at ht
    cases found with
    | true => simp at ht
    | false => exact Or.inr (by simpa using ht)
  | cons x rest ih =>
    intro found out h t ht
    unfold replaceCommandGo at h
    by_cases hx : (x == "%command%") = true
    · rw [if_pos hx] at h
      cases found with
      | true => exact absurd h (by simp)
      | false =>
        cases hrec : replaceCommandGo base rest true with
        | error e => rw [hrec] at h; exact absurd h (by simp)
        | ok ts0 =>
          rw [hrec] at h
          injection h with h2
          rw [← h2] at ht
          rcases List.mem_append.mp ht with hb | hts
          · exact Or.inr hb
          · rcases ih true ts0 hrec t hts with hin | hb
            · exact Or.inl (List.mem_cons_of_mem x hin)
            · exact Or.inr hb
    · rw [if_neg hx] at h
      cases hrec : replaceCommandGo base rest found with
      | error e => rw [hrec] at h; exact absurd h (by simp)
      | ok ts0 =>
        rw [hrec] at h
        injection h with h2
        rw [← h2] at ht
        rcases List.mem_cons.mp ht with rfl | htl
        · exact Or.inl (List.mem_cons_self t rest)
        · rcases ih found ts0 hrec t htl with hin | hb
          · exact Or.inl (List.mem_cons_of_mem x hin)
          · exact Or.inr hb

/-! ## Lemmas about the wrapper stages -/

theorem upscalingFlags_mem {s : String} {fl : List String}
    (h : upscalingFlags s = .ok fl) :
    ∀ t ∈ fl, t ∈ ["-F", "fsr", "nis", "-S", "integer", "stretch", "-n", "-b"] := by
  unfold upscalingFlags at h
  split at h <;> first
    | (injection h with h2; subst h2; decide)
    | exact absurd h (by simp)

theorem gamescope_flags_mem {b : CommandBuilder} {flags : List String}
    (h : gamescope_flags b = .ok flags) :
    ∀ t ∈ flags, t ∈ wrapperTokens b := by
  intro t ht
  unfold gamescope_flags at h
  cases hu : upscalingFlags b.config.gamescope.upscaling with
  | error e => rw [hu] at h; exact absurd h (by simp)
  | ok upflags =>
    rw [hu] at h
    injection h with h2
    rw [← h2] at ht
    simp only [List.append_assoc, List.mem_append] at ht
    unfold wrapperTokens
    simp only [List.append_assoc, List.mem_append]
    rcases ht with ht | ht | ht | ht | ht | ht | ht | ht | ht
    · exact Or.inr (Or.inl ht)
    · have := upscalingFlags_mem hu t ht
      exact Or.inr (Or.inr (Or.inl this))
    all_goals
      refine Or.inr (Or.inr (Or.inr ?_))
      have hm := mem_ite_nil ht
      simp only [List.mem_singleton] at hm
      subst hm
      decide

theorem wrapAll_ok_shape {b : CommandBuilder} {inner out : List String}
    (h : wrapAll b inner = .ok out) :
    (b.config.gamescope.enabled = true →
      ∃ flags, gamescope_flags b = .ok flags ∧
        out = (if b.config.launch.gamemode then ["gamemoderun"] else []) ++
          "gamescope" :: (flags ++ ["--"] ++ inner)) ∧
    (b.config.gamescope.enabled = false →
      out = (if b.config.launch.gamemode then ["gamemoderun"] else []) ++
        (if b.config.launch.mangohud then ["mangohud"] else []) ++ inner) := by
  unfold wrapAll wrap_with_mangohud wrap_with_gamescope wrap_with_gamemode at h
  cases hgs : b.config.gamescope.enabled with
  | true =>
    rw [hgs] at h
    simp only [Bool.or_true, if_true, Bool.not_true, Bool.false_eq_true, if_false] at h
    constructor
    · intro _
      cases hf : gamescope_flags b with
      | error e => rw [hf] at h; exact absurd h (by simp)
      | ok flags =>
        rw [hf] at h
        refine ⟨flags, rfl, ?_⟩
        cases hgm : b.config.launch.gamemode with
        | true =>
          rw [hgm] at h
          simp only [Bool.not_true, Bool.false_eq_true, if_false] at h
          injection h with h2
          rw [← h2]
          simp
        | false =>
          rw [hgm] at h
          simp only [Bool.not_false, if_true] at h
          injection h with h2
          rw [← h2]
          simp
    · intro hc
      exact absurd hc (by simp)
  | false =>
    rw [hgs] at h
    simp only [Bool.or_false, Bool.not_false, if_true] at h
    constructor
    · intro hc
      exact absurd hc (by simp)
    · intro _
      cases hmh : b.config.launch.mangohud with
      | true =>
        rw [hmh] at h
        simp only [Bool.not_true, Bool.false_eq_true, if_false] at h
        cases hgm : b.config.launch.gamemode with
        | true =>
          rw [hgm] at h
          simp only [Bool.not_true, Bool.false_eq_true, if_false] at h
          injection h with h2
          rw [← h2]
          simp
        | false =>
          rw [hgm] at h
          simp only [Bool.not_false, if_true] at h
          injection h with h2
          rw [← h2]
          simp
      | false =>
        rw [hmh] at h
        simp only [Bool.not_false, if_true] at h
        cases hgm : b.config.launch.gamemode with
        | true =>
          rw [hgm] at h
          simp only [Bool.not_true, Bool.false_eq_true, if_false] at h
          injection h with h2
          rw [← h2]
          simp
        | false =>
          rw [hgm] at h
          simp only [Bool.not_false, if_true] at h
          injection h with h2
          rw [← h2]
          simp

theorem mem_wrapperTokens_fixed {b : CommandBuilder} {t : String}
    (h : t ∈ (["mangohud", "gamemoderun", "gamescope", "--"] : List String)) :
    t ∈ wrapperTokens b := by
  unfold wrapperTokens
  simp only [List.append_assoc, List.mem_append]
  exact Or.inl h

theorem wrapAll_ok_mem {b : CommandBuilder} {inner out : List String}
    (h : wrapAll b inner = .ok out) :
    ∀ t ∈ out, t ∈ inner ∨ t ∈ wrapperTokens b := by
  intro t ht
  have hshape := wrapAll_ok_shape h
  cases hgs : b.config.gamescope.enabled with
  | true =>
    obtain ⟨flags, hf, hout⟩ := hshape.1 hgs
    rw [hout] at ht
    simp only [List.append_assoc, List.mem_append, List.mem_cons,
      List.mem_singleton] at ht
    rcases ht with ht | rfl | ht | (rfl | h0) | ht
    · have h1 := mem_ite_nil ht
      simp only [List.mem_singleton] at h1
      subst h1
      exact Or.inr (mem_wrapperTokens_fixed (by decide))
    · exact Or.inr (mem_wrapperTokens_fixed (by decide))
    · exact Or.inr (gamescope_flags_mem hf t ht)
    · exact Or.inr (mem_wrapperTokens_fixed (by decide))
    · exact absurd h0 (List.not_mem_nil t)
    · exact Or.inl ht
  | false =>
    have hout := hshape.2 hgs
    rw [hout] at ht
    simp only [List.append_assoc, List.mem_append] at ht
    rcases ht with ht | ht | ht
    · have h1 := mem_ite_nil ht
      simp only [List.mem_singleton] at h1
      subst h1
      exact Or.inr (mem_wrapperTokens_fixed (by decide))
    · have h1 := mem_ite_nil ht
      simp only [List.mem_singleton] at h1
      subst h1
      exact Or.inr (mem_wrapperTokens_fixed (by decide))
    · exact Or.inl ht

/-! ## Lemmas about `process_launch_options` and `build` -/

theorem process_ok_inner {b : CommandBuilder} {base final : List String}
    (h : process_launch_options b base = .ok final) :
    ∃ inner, wrapAll b inner = .ok final ∧
      ((b.config.launch.launch_options = "" ∧ inner = base) ∨
       (∃ ts, parse_launch_options b.config.launch.launch_options = .ok ts ∧
          replaceCommandGo base ts false = .ok inner)) := by
  unfold process_launch_options at h
  by_cases he : b.config.launch.launch_options = ""
  · rw [if_pos he] at h
    exact ⟨base, h, Or.inl ⟨he, rfl⟩⟩
  · rw [if_neg he] at h
    cases hp : parse_launch_options b.config.launch.launch_options with
    | error e => rw [hp] at h; exact absurd h (by simp)
    | ok ts =>
      rw [hp] at h
      have h2 : (match replaceCommandGo base ts false with
        | .error e => (Except.error e : Except String (List String))
        | .ok final_command => wrapAll b final_command) = .ok final := h
      cases hr : replaceCommandGo base ts false with
      | error e => rw [hr] at h2; exact absurd h2 (by simp)
      | ok inner =>
        rw [hr] at h2
        exact ⟨inner, h2, Or.inr ⟨ts, rfl, hr⟩⟩

theorem process_err_of_parse_err {b : CommandBuilder} {base : List String}
    (hne : b.config.launch.launch_options ≠ "")
    (hp : isErr (parse_launch_options b.config.launch.launch_options) = true) :
    isErr (process_launch_options b base) = true := by
  unfold process_launch_options
  rw [if_neg hne]
  cases hps : parse_launch_options b.config.launch.launch_options with
  | error e => rfl
  | ok ts => rw [hps] at hp; exact absurd hp (by simp [isErr])

theorem build_ok_env {b : CommandBuilder} {cmd : LaunchCommand}
    (h : build b = .ok cmd) :
    cmd.environment = envExtend (build_wine_environment b) (build_dxvk_environment b) := by
  unfold build at h
  cases hb : build_base_command b with
  | error e => rw [hb] at h; exact absurd h (by simp)
  | ok base =>
    rw [hb] at h
    have h2 : (match process_launch_options b base with
      | .error e => (Except.error e : Except String LaunchCommand)
      | .ok final_command =>
        Except.ok { command := final_command,
                    environment := envExtend (build_wine_environment b)
                      (build_dxvk_environment b),
                    working_directory := b.config.game.prefixPath }) = .ok cmd := h
    cases hp : process_launch_options b base with
    | error e => rw [hp] at h2; exact absurd h2 (by simp)
    | ok fin =>
      rw [hp] at h2
      injection h2 with h3
      rw [← h3]

theorem build_ok_process {b : CommandBuilder} {cmd : LaunchCommand}
    (h : build b = .ok cmd) :
    ∃ base, build_base_command b = .ok base ∧
      process_launch_options b base = .ok cmd.command := by
  unfold build at h
  cases hb : build_base_command b with
  | error e => rw [hb] at h; exact absurd h (by simp)
  | ok base =>
    rw [hb] at h
    have h2 : (match process_launch_options b base with
      | .error e => (Except.error e : Except String LaunchCommand)
      | .ok final_command =>
        Except.ok { command := final_command,
                    environment := envExtend (build_wine_environment b)
                      (build_dxvk_environment b),
                    working_directory := b.config.game.prefixPath }) = .ok cmd := h
    cases hp : process_launch_options b base with
    | error e => rw [hp] at h2; exact absurd h2 (by simp)
    | ok fin =>
      rw [hp] at h2
      injection h2 with h3
      rw [← h3]
      exact ⟨base, rfl, hp⟩

/-! ## Theorems for claim C8 -/

theorem matchGeProtonAt_exact {s1 s2 : List Char}
    (h1 : s1 ≠ []) (h2 : s2 ≠ [])
    (d1 : ∀ c ∈ s1, c.isDigit = true) (d2 : ∀ c ∈ s2, c.isDigit = true) :
    matchGeProtonAt (geProtonPat ++ (s1 ++ '-' :: s2)) = some (s1, s2) := by
  unfold matchGeProtonAt
  rw [isPrefixOf_append_self]
  simp only [if_true, List.drop_left]
  rw [takeWhile_append_stop d1 (by decide)]
  have hs1 : s1.isEmpty = false := by
    cases s1 with
    | nil => exact absurd rfl h1
    | cons a as => rfl
  rw [hs1]
  simp only [Bool.false_eq_true, if_false, List.drop_left]
  rw [takeWhile_eq_self_of_all d2]
  have hs2 : s2.isEmpty = false := by
    cases s2 with
    | nil => exact absurd rfl h2
    | cons a as => rfl
  rw [hs2]
  rfl

theorem searchGeProton_exact {s1 s2 : List Char}
    (h1 : s1 ≠ []) (h2 : s2 ≠ [])
    (d1 : ∀ c ∈ s1, c.isDigit = true) (d2 : ∀ c ∈ s2, c.isDigit = true) :
    searchGeProton (geProtonPat ++ (s1 ++ '-' :: s2)) = some (s1, s2) := by
  have hm := matchGeProtonAt_exact h1 h2 d1 d2
  have hshape : geProtonPat ++ (s1 ++ '-' :: s2) =
      'G' :: ("E-Proton".toList ++ (s1 ++ '-' :: s2)) := rfl
  rw [hshape] at hm ⊢
  rw [searchGeProton, hm]

theorem matchGeProtonAt_of_no_digit {cs : List Char}
    (h : ∀ c ∈ cs, c.isDigit = false) : matchGeProtonAt cs = none := by
  unfold matchGeProtonAt
  cases hpre : geProtonPat.isPrefixOf cs with
  | false => rfl
  | true =>
    have hd1 : (cs.drop geProtonPat.length).takeWhile Char.isDigit = [] := by
      cases hdr : cs.drop geProtonPat.length with
      | nil => rfl
      | cons a as =>
        have ha : a.isDigit = false := by
          apply h
          exact List.drop_subset geProtonPat.length cs (hdr ▸ List.mem_cons_self a as)
        simp [List.takeWhile_cons, ha]
    simp [hd1]

theorem searchGeProton_of_no_digit {cs : List Char}
    (h : ∀ c ∈ cs, c.isDigit = false) : searchGeProton cs = none := by
  induction cs with
  | nil => rfl
  | cons a as ih =>
    rw [searchGeProton, matchGeProtonAt_of_no_digit h]
    exact ih fun c hc => h c (List.mem_cons_of_mem a hc)

theorem firstDigitRun_of_no_digit {cs : List Char}
    (h : ∀ c ∈ cs, c.isDigit = false) : firstDigitRun cs = [] := by
  induction cs with
  | nil => rfl
  | cons a as ih =>
    rw [firstDigitRun]
    simp only [h a (List.mem_cons_self a as), Bool.false_eq_true, if_false]
    exact ih fun c hc => h c (List.mem_cons_of_mem a hc)

theorem version_key_eval {s : String} {d1 d2 : List Char} {m n : Nat}
    (hs : searchGeProton s.toList = some (d1, d2))
    (hm : parseU32orZero d1 = m) (hn : parseU32orZero d2 = n) :
    extract_version_number s = (m : ℚ) + (n : ℚ) / 100 := by
  unfold extract_version_number
  rw [hs]
  show (parseU32orZero d1 : ℚ) + (parseU32orZero d2 : ℚ) / 100 = _
  rw [hm, hn]

/-- C8 counterexample: the claim "the key of `GE-Proton{M}-{N}` is
`M + N/100`" fails when the major capture exceeds `u32::MAX`, because
`parse::<u32>().unwrap_or(0)` collapses it to `0`:
`extract_version_number "GE-Proton4294967296-1"` is `1/100`, not
`4294967296 + 1/100`. -/
theorem C8_counterexample_u32_overflow :
    extract_version_number "GE-Proton4294967296-1" = 1 / 100 ∧
      extract_version_number "GE-Proton4294967296-1" ≠ 4294967296 + 1 / 100 := by
  have h : extract_version_number "GE-Proton4294967296-1" = (0 : ℚ) + (1 : ℚ) / 100 :=
    @version_key_eval "GE-Proton4294967296-1" "4294967296".toList ['1'] 0 1
      (by decide) (by decide) (by decide)
  rw [h]
  norm_num

/-- C8 (amended): the pure version-key function maps
`GE-Proton{M}-{N}` to the key `M + N/100` whenever the two captured
digit runs fit in `u32` (out-of-range captures are read as `0` by
`unwrap_or`); it maps any other string containing digits to its first
digit run read as a number, and a completely non-numeric string to `0`;
and latest-version selection over `GE-Proton9-1` and `GE-Proton10-10`
returns `GE-Proton10-10`. -/
theorem C8_extract_version_number_key :
    (∀ s1 s2 : List Char, s1 ≠ [] → s2 ≠ [] →
      (∀ c ∈ s1, c.isDigit = true) → (∀ c ∈ s2, c.isDigit = true) →
      digitsToNat s1 ≤ u32max → digitsToNat s2 ≤ u32max →
      extract_version_number (String.mk (geProtonPat ++ (s1 ++ '-' :: s2))) =
        (digitsToNat s1 : ℚ) + (digitsToNat s2 : ℚ) / 100) ∧
    (∀ s : String, searchGeProton s.toList = none → firstDigitRun s.toList ≠ [] →
      extract_version_number s = (digitsToNat (firstDigitRun s.toList) : ℚ)) ∧
    (∀ s : String, (∀ c ∈ s.toList, c.isDigit = false) →
      extract_version_number s = 0) ∧
    get_latest_proton_version ["GE-Proton9-1", "GE-Proton10-10"] =
      some "GE-Proton10-10" := by
  have h91 : extract_version_number "GE-Proton9-1" = (9 : ℚ) + (1 : ℚ) / 100 :=
    @version_key_eval "GE-Proton9-1" ['9'] ['1'] 9 1 (by decide) (by decide) (by decide)
  have h1010 : extract_version_number "GE-Proton10-10" = (10 : ℚ) + (10 : ℚ) / 100 :=
    @version_key_eval "GE-Proton10-10" ['1', '0'] ['1', '0'] 10 10
      (by decide) (by decide) (by decide)
  have hcmp : ¬ versionAfter "GE-Proton9-1" "GE-Proton10-10" := by
    unfold versionAfter
    rw [h91, h1010]
    norm_num
  refine ⟨?_, ?_, ?_,
    by simp [get_latest_proton_version, List.insertionSort, List.orderedInsert, hcmp]⟩
  · intro s1 s2 h1 h2 d1 d2 b1 b2
    have htl : (String.mk (geProtonPat ++ (s1 ++ '-' :: s2))).toList =
        geProtonPat ++ (s1 ++ '-' :: s2) := rfl
    unfold extract_version_number
    rw [htl, searchGeProton_exact h1 h2 d1 d2]
    simp only [parseU32orZero, if_pos b1, if_pos b2]
  · intro s hsearch hrun
    unfold extract_version_number
    rw [hsearch]
    show (match firstDigitRun s.toList with
      | [] => (0 : ℚ)
      | run => (digitsToNat run : ℚ)) = _
    cases hr : firstDigitRun s.toList with
    | nil => exact absurd hr hrun
    | cons a as => rfl
  · intro s h
    unfold extract_version_number
    rw [searchGeProton_of_no_digit h, firstDigitRun_of_no_digit h]

/-- Witness for C8: instantiating the amended key property at
`GE-Proton10-10`. -/
theorem C8_extract_version_number_key_witness :
    extract_version_number (String.mk (geProtonPat ++ (['1', '0'] ++ '-' :: ['1', '0']))) =
      (digitsToNat ['1', '0'] : ℚ) + (digitsToNat ['1', '0'] : ℚ) / 100 :=
  C8_extract_version_number_key.1 ['1', '0'] ['1', '0'] (by decide) (by decide)
    (by decide) (by decide) (by decide) (by decide)

/-! ## Theorems for claim C9 -/

/-- C9: for a non-zero exit, the run is reported as failed iff some
captured stderr line contains an error/failure marker
(case-insensitively) and matches none of the known-benign diagnostic
filters; a non-zero exit with no such line is reported as success. -/
theorem C9_handle_command_output_failed_iff (stderr : String) :
    isErr (handle_command_output false stderr) = true ↔
      ∃ l ∈ linesOf stderr,
        (strContainsSub "error" (toLowerStr l) = true ∨
          strContainsSub "failed" (toLowerStr l) = true) ∧
        strContainsSub "fixme:" l = false ∧
        strContainsSub "err:setupapi:create_dest_file" l = false ∧
        strContainsSub "wine-staging" l = false ∧
        strContainsSub "experimental patches" l = false ∧
        strContainsSub "winediag:" l = false ∧
        strContainsSub "stub" (toLowerStr l) = false ∧
        isBlank l = false := by
  have hcrit : ∀ l : String, is_critical_line l = true ↔
      ((strContainsSub "error" (toLowerStr l) = true ∨
          strContainsSub "failed" (toLowerStr l) = true) ∧
        strContainsSub "fixme:" l = false ∧
        strContainsSub "err:setupapi:create_dest_file" l = false ∧
        strContainsSub "wine-staging" l = false ∧
        strContainsSub "experimental patches" l = false ∧
        strContainsSub "winediag:" l = false ∧
        strContainsSub "stub" (toLowerStr l) = false ∧
        isBlank l = false) := by
    intro l
    simp [is_critical_line, Bool.and_eq_true, Bool.or_eq_true,
      Bool.not_eq_true', and_assoc]
  have hkey : isErr (handle_command_output false stderr) =
      !((linesOf stderr).filter is_critical_line).isEmpty := by
    unfold handle_command_output
    cases h : ((linesOf stderr).filter is_critical_line).isEmpty with
    | false => simp [h, isErr]
    | true => simp [h, isErr]
  rw [hkey]
  constructor
  · intro h
    cases hf : (linesOf stderr).filter is_critical_line with
    | nil => rw [hf] at h; simp at h
    | cons a as =>
      have ha : a ∈ (linesOf stderr).filter is_critical_line := by
        rw [hf]; exact List.mem_cons_self a as
      rw [List.mem_filter] at ha
      exact ⟨a, ha.1, (hcrit a).mp ha.2⟩
  · rintro ⟨l, hl, hspec⟩
    have hmem : l ∈ (linesOf stderr).filter is_critical_line :=
      List.mem_filter.mpr ⟨hl, (hcrit l).mpr hspec⟩
    cases hf : (linesOf stderr).filter is_critical_line with
    | nil => rw [hf] at hmem; simp at hmem
    | cons a as => rfl

/-- Witness for C9: a stderr transcript whose only line is a genuine
error is reported as failed. -/
theorem C9_handle_command_output_failed_iff_witness :
    isErr (handle_command_output false "wine: critical error while loading\n") = true :=
  (C9_handle_command_output_failed_iff "wine: critical error while loading\n").mpr
    ⟨"wine: critical error while loading", by decide, by decide, by decide,
      by decide, by decide, by decide, by decide, by decide, by decide⟩

/-! ## Theorems for claims C5, C6, C7, C10 -/

/-- C5: any override token containing a denylisted shell metacharacter
is rejected by the sanitizer, and no denylisted character appears in any
token the tokenizer outputs (hence in any override-derived argv entry:
every entry of a compiled command is a base-invocation token, a fixed
wrapper token, or a sanitized override token); and any flag-prefixed
token that is not the placeholder must be allowlisted, a bare integer,
or a WIDTHxHEIGHT resolution, otherwise compilation fails. -/
theorem C5_sanitizer_denylist_allowlist :
    (∀ t : String, hasDangerousChar t = true → isErr (sanitize_token t) = true) ∧
    (∀ t : String, startsWithDash t = true → t ≠ "%command%" →
      is_safe_option t = false → isErr (sanitize_token t) = true) ∧
    (∀ (s : String) (ts : List String), parse_launch_options s = .ok ts →
      ∀ t ∈ ts, hasDangerousChar t = false ∧
        (startsWithDash t = true → t ≠ "%command%" → is_safe_option t = true)) ∧
    (∀ (b : CommandBuilder) (base final : List String),
      process_launch_options b base = .ok final →
      ∀ t ∈ final, t ∈ base ∨ t ∈ wrapperTokens b ∨ hasDangerousChar t = false) := by
  refine ⟨?_, ?_, ?_, ?_⟩
  · exact fun t h => sanitize_token_err_of_char h
  · exact fun t hd hne hs => sanitize_token_err_of_option hd hne hs
  · intro s ts hok t ht
    obtain ⟨x, hx⟩ := parseGo_ok_sanitized s.toList [] false ts hok t ht
    obtain ⟨-, hchar, -, hflag⟩ := sanitize_token_ok hx
    exact ⟨hchar, hflag⟩
  · intro b base final hok t ht
    obtain ⟨inner, hwrap, hcase⟩ := process_ok_inner hok
    rcases wrapAll_ok_mem hwrap t ht with hin | hw
    · rcases hcase with ⟨-, rfl⟩ | ⟨ts, hp, hr⟩
      · exact Or.inl hin
      · rcases replaceGo_ok_mem base ts false inner hr t hin with hts | hb
        · obtain ⟨x, hx⟩ := parseGo_ok_sanitized _ [] false ts hp t hts
          obtain ⟨-, hchar, -, -⟩ := sanitize_token_ok hx
          exact Or.inr (Or.inr hchar)
        · exact Or.inl hb
    · exact Or.inr (Or.inl hw)

/-- Witness for C5: a token carrying the pipe metacharacter is
rejected. -/
theorem C5_sanitizer_denylist_allowlist_witness :
    isErr (sanitize_token "a|b") = true :=
  C5_sanitizer_denylist_allowlist.1 "a|b" (by decide)

/-- C6: tokenization respects double-quoted substrings and an
unterminated quote (odd number of quote characters) is a hard error;
the placeholder is replaced in place, at most once, by the whole base
invocation; a second occurrence is a hard error; with no placeholder
the base invocation is appended after all override tokens. -/
theorem C6_tokenization_and_placeholder :
    (∀ (b : CommandBuilder) (base : List String),
      countQuotes b.config.launch.launch_options % 2 = 1 →
      isErr (process_launch_options b base) = true) ∧
    (parse_launch_options "a \x22b c\x22 d" = .ok ["a", "b c", "d"]) ∧
    (∀ base pre post : List String, "%command%" ∉ pre → "%command%" ∉ post →
      replaceCommandGo base (pre ++ "%command%" :: post) false =
        .ok (pre ++ base ++ post)) ∧
    (∀ base ts : List String, 2 ≤ ts.count "%command%" →
      isErr (replaceCommandGo base ts false) = true) ∧
    (∀ base ts : List String, ts.count "%command%" = 0 →
      replaceCommandGo base ts false = .ok (ts ++ base)) := by
  refine ⟨?_, by rfl, replaceGo_single, replaceGo_dup_err, replaceGo_not_found⟩
  intro b base hodd
  have hne : b.config.launch.launch_options ≠ "" := by
    intro h0
    rw [h0] at hodd
    revert hodd
    decide
  exact process_err_of_parse_err hne (parse_launch_options_err_of_odd hodd)

/-- Witness for C6: an override string with an unterminated quote makes
compilation fail. -/
theorem C6_tokenization_and_placeholder_witness :
    isErr (process_launch_options
      { config := { testConfig with
          launch := { testConfig.launch with launch_options := "\x22abc" } },
        proton_path := some "/path/to/proton" } ["umu-run"]) = true :=
  C6_tokenization_and_placeholder.1 _ _ (by decide)

/-- C7: wrappers are applied in the fixed order overlay (mangohud)
innermost, then compositor (gamescope, with a `--` separator before the
inner command), then scheduler hint (gamemoderun) outermost; the
overlay wrapper is skipped entirely when the compositor is enabled; and
with an empty override string, compositor and scheduler hint disabled
and overlay enabled, the compiled argv is exactly the overlay binary
followed by the base invocation. -/
theorem C7_wrapper_order :
    (∀ (b : CommandBuilder) (inner out : List String),
      wrapAll b inner = .ok out →
      (b.config.gamescope.enabled = true →
        ∃ flags, gamescope_flags b = .ok flags ∧
          out = (if b.config.launch.gamemode then ["gamemoderun"] else []) ++
            "gamescope" :: (flags ++ ["--"] ++ inner)) ∧
      (b.config.gamescope.enabled = false →
        out = (if b.config.launch.gamemode then ["gamemoderun"] else []) ++
          (if b.config.launch.mangohud then ["mangohud"] else []) ++ inner)) ∧
    (∀ (b : CommandBuilder) (base : List String),
      b.config.launch.launch_options = "" →
      b.config.launch.mangohud = true →
      b.config.gamescope.enabled = false →
      b.config.launch.gamemode = false →
      process_launch_options b base = .ok ("mangohud" :: base)) := by
  refine ⟨fun b inner out h => wrapAll_ok_shape h, ?_⟩
  intro b base hopt hmh hgs hgm
  unfold process_launch_options
  rw [if_pos hopt]
  unfold wrapAll wrap_with_mangohud wrap_with_gamescope wrap_with_gamemode
  rw [hmh, hgs, hgm]
  simp

/-- Witness for C7: mangohud enabled, gamescope and gamemode disabled,
empty override string. -/
theorem C7_wrapper_order_witness :
    process_launch_options
      { config := { testConfig with
          launch := { testConfig.launch with mangohud := true } },
        proton_path := some "/path/to/proton" }
      ["umu-run", "/path/to/game.exe"] =
      .ok ["mangohud", "umu-run", "/path/to/game.exe"] :=
  C7_wrapper_order.2 _ _ (by decide) (by decide) (by decide) (by decide)

/-- C10: whenever compilation succeeds the environment binds WINEARCH
to `win64`, WINEPREFIX to the prefix, PROTON_VERB to
`waitforexitandrun`, GAMEID to `umu-default`, HOST_LC_ALL to
`en_US.UTF-8`; WINEDLLOVERRIDES is the DXVK DLL-override list when DXVK
is enabled and is present but bound to the empty string when DXVK is
disabled; and with DXVK enabled, DXVK_HUD is present (the configured
value, or `0` when that is empty). -/
theorem C10_environment_invariants (b : CommandBuilder) (cmd : LaunchCommand)
    (h : build b = .ok cmd) :
    envLookup "WINEARCH" cmd.environment = some "win64" ∧
    envLookup "WINEPREFIX" cmd.environment = some b.config.game.prefixPath ∧
    envLookup "PROTON_VERB" cmd.environment = some "waitforexitandrun" ∧
    envLookup "GAMEID" cmd.environment = some "umu-default" ∧
    envLookup "HOST_LC_ALL" cmd.environment = some "en_US.UTF-8" ∧
    envLookup "WINEDLLOVERRIDES" cmd.environment =
      some (if b.config.wine_config.dxvk then "d3d10core,d3d11,d3d9,dxgi=n,b" else "") ∧
    (b.config.wine_config.dxvk = true →
      envLookup "DXVK_HUD" cmd.environment =
        some (if b.config.dxvk.hud = "" then "0" else b.config.dxvk.hud)) := by
  rw [build_ok_env h]
  by_cases hhud : b.config.dxvk.hud = "" <;>
  cases hdx : b.config.wine_config.dxvk <;>
  cases hes : b.config.wine_config.esync <;>
  cases hfs : b.config.wine_config.fsync <;>
  cases hla : b.config.wine_config.large_address_aware <;>
  cases hda : b.config.wine_config.dxvk_async <;>
  cases hpp : b.proton_path <;>
  simp [build_wine_environment, build_dxvk_environment, envExtend, envInsert,
    envLookup, hdx, hes, hfs, hla, hda, hhud, hpp]

/-- Witness for C10: the test configuration compiles and its
environment carries the required bindings. -/
theorem C10_environment_invariants_witness :
    envLookup "WINEARCH" testLaunchCommand.environment = some "win64" ∧
    envLookup "WINEPREFIX" testLaunchCommand.environment = some "/path/to/prefix" ∧
    envLookup "DXVK_HUD" testLaunchCommand.environment = some "0" := by
  have h := C10_environment_invariants
    { config := testConfig, proton_path := some "/path/to/proton" }
    testLaunchCommand (by rfl)
  exact ⟨h.1, h.2.1, h.2.2.2.2.2.2 rfl⟩

/-! ## Lemmas about path validation and the theorem for claim C2 -/

theorem normalize_err_of_bad {entry : List PathComponent}
    (h : PathComponent.parentDir ∈ entry ∨ PathComponent.rootDir ∈ entry ∨
      PathComponent.drive ∈ entry) :
    isErr (normalizeComponents entry) = true := by
  induction entry with
  | nil => simp at h
  | cons c rest ih =>
    cases c with
    | normal s =>
      have hr : PathComponent.parentDir ∈ rest ∨ PathComponent.rootDir ∈ rest ∨
          PathComponent.drive ∈ rest := by
        rcases h with h | h | h
        · rcases List.mem_cons.mp h with heq | hm
          · exact absurd heq (by simp)
          · exact Or.inl hm
        · rcases List.mem_cons.mp h with heq | hm
          · exact absurd heq (by simp)
          · exact Or.inr (Or.inl hm)
        · rcases List.mem_cons.mp h with heq | hm
          · exact absurd heq (by simp)
          · exact Or.inr (Or.inr hm)
      have hrec := ih hr
      unfold normalizeComponents
      cases hn : normalizeComponents rest with
      | error e => rfl
      | ok ns =>
        rw [hn] at hrec
        exact absurd hrec (by simp [isErr])
    | curDir =>
      have hr : PathComponent.parentDir ∈ rest ∨ PathComponent.rootDir ∈ rest ∨
          PathComponent.drive ∈ rest := by
        rcases h with h | h | h
        · rcases List.mem_cons.mp h with heq | hm
          · exact absurd heq (by simp)
          · exact Or.inl hm
        · rcases List.mem_cons.mp h with heq | hm
          · exact absurd heq (by simp)
          · exact Or.inr (Or.inl hm)
        · rcases List.mem_cons.mp h with heq | hm
          · exact absurd heq (by simp)
          · exact Or.inr (Or.inr hm)
      exact ih hr
    | parentDir => rfl
    | rootDir => rfl
    | drive => rfl

theorem normalize_ok_mem {entry : List PathComponent} {ns : List String}
    {s : String} (h : normalizeComponents entry = .ok ns)
    (hm : PathComponent.normal s ∈ entry) : s ∈ ns := by
  induction entry generalizing ns with
  | nil => simp at hm
  | cons c rest ih =>
    cases c with
    | normal s2 =>
      unfold normalizeComponents at h
      cases hn : normalizeComponents rest with
      | error e => rw [hn] at h; exact absurd h (by simp)
      | ok ns2 =>
        rw [hn] at h
        injection h with h2
        rw [← h2]
        rcases List.mem_cons.mp hm with heq | hmm
        · have : s = s2 := by
            injection heq
          rw [this]
          exact List.mem_cons_self s2 ns2
        · exact List.mem_cons_of_mem s2 (ih hn hmm)
    | curDir =>
      unfold normalizeComponents at h
      rcases List.mem_cons.mp hm with heq | hmm
      · exact absurd heq (by simp)
      · exact ih h hmm
    | parentDir => exact absurd h (by simp [normalizeComponents])
    | rootDir => exact absurd h (by simp [normalizeComponents])
    | drive => exact absurd h (by simp [normalizeComponents])

theorem mem_joinSlash {parts : List String} {s : String} {c : Char}
    (hs : s ∈ parts) (hc : c ∈ s.toList) : c ∈ joinSlash parts := by
  induction parts with
  | nil => simp at hs
  | cons p ps ih =>
    cases ps with
    | nil =>
      rcases List.mem_singleton.mp hs with rfl
      simpa [joinSlash] using hc
    | cons q qs =>
      show c ∈ p.toList ++ '/' :: joinSlash (q :: qs)
      rcases List.mem_cons.mp hs with rfl | hm
      · exact List.mem_append.mpr (Or.inl hc)
      · exact List.mem_append.mpr (Or.inr (List.mem_cons_of_mem _ (ih hm)))

theorem suspicious_of_char {cs : List Char} {c : Char} (hc : c ∈ cs)
    (h : c = '\x00' ∨ c = '\x5c') : suspiciousPath cs = true := by
  rcases h with rfl | rfl
  · simp [suspiciousPath, hc]
  · simp [suspiciousPath, hc]

theorem checkDest_ok {canon : List String → Option (List String)}
    {dest canonical fp p : List String}
    (h : checkDest canon dest canonical fp = .ok p) :
    p = fp ∧ ∃ cd, canon dest = some cd ∧ cd.isPrefixOf canonical = true := by
  unfold checkDest at h
  cases hd : canon dest with
  | none => rw [hd] at h; exact absurd h (by simp)
  | some cd =>
    rw [hd] at h
    have h2 : (if cd.isPrefixOf canonical then (Except.ok fp : Except String (List String))
        else .error "Path escapes destination directory") = .ok p := h
    by_cases hpre : cd.isPrefixOf canonical = true
    · rw [if_pos hpre] at h2
      injection h2 with h3
      exact ⟨h3.symm, cd, rfl, hpre⟩
    · rw [if_neg hpre] at h2
      exact absurd h2 (by simp)

theorem validateCanonical_ok {canonB canonA : List String → Option (List String)}
    {fp dest p : List String}
    (h : validateCanonical canonB canonA fp dest = .ok p) :
    p = fp ∧
      ((∃ c cd, canonB fp = some c ∧ canonB dest = some cd ∧
          cd.isPrefixOf c = true) ∨
       (∃ c cd, canonA fp = some c ∧ canonA dest = some cd ∧
          cd.isPrefixOf c = true)) := by
  unfold validateCanonical at h
  cases hB : canonB fp with
  | some c1 =>
    rw [hB] at h
    have h2 : checkDest canonB dest c1 fp = .ok p := h
    obtain ⟨hp, cd, hcd, hpre⟩ := checkDest_ok h2
    exact ⟨hp, Or.inl ⟨c1, cd, rfl, hcd, hpre⟩⟩
  | none =>
    rw [hB] at h
    have h2 : (if fp.isEmpty then
        (Except.error "Final path has no parent" : Except String (List String))
      else
        match canonA fp with
        | some canonical => checkDest canonA dest canonical fp
        | none =>
          .error "Failed to canonicalize path after creating parents") = .ok p := h
    by_cases hemp : fp.isEmpty = true
    · rw [if_pos hemp] at h2
      exact absurd h2 (by simp)
    · rw [if_neg hemp] at h2
      cases hA : canonA fp with
      | some c1 =>
        rw [hA] at h2
        have h3 : checkDest canonA dest c1 fp = .ok p := h2
        obtain ⟨hp, cd, hcd, hpre⟩ := checkDest_ok h3
        exact ⟨hp, Or.inr ⟨c1, cd, rfl, hcd, hpre⟩⟩
      | none =>
        rw [hA] at h2
        exact absurd h2 (by simp)

theorem validate_err_of_norm_err {canonB canonA : List String → Option (List String)}
    {entry : List PathComponent} {dest : List String} {e : String}
    (hn : normalizeComponents entry = .error e) :
    validate_archive_path canonB canonA entry dest = .error e := by
  unfold validate_archive_path
  rw [hn]

theorem validate_err_of_susp {canonB canonA : List String → Option (List String)}
    {entry : List PathComponent} {dest : List String} {ns : List String}
    (hn : normalizeComponents entry = .ok ns)
    (hs : suspiciousPath (joinSlash ns) = true) :
    validate_archive_path canonB canonA entry dest =
      .error "Suspicious path pattern detected" := by
  unfold validate_archive_path
  rw [hn]
  simp [hs]

/-- C2: `validate_archive_path` errs on any entry path containing a
parent-directory component, a root component, a drive prefix, a null
byte, or a backslash; and whenever it returns a path, the
canonicalization consulted at that moment maps it to an absolute path
having the canonicalized destination as a prefix. -/
theorem C2_validate_archive_path :
    (∀ (canonB canonA : List String → Option (List String))
        (entry : List PathComponent) (dest : List String),
      (PathComponent.parentDir ∈ entry ∨ PathComponent.rootDir ∈ entry ∨
        PathComponent.drive ∈ entry ∨
        (∃ s, PathComponent.normal s ∈ entry ∧
          ('\x00' ∈ s.toList ∨ '\x5c' ∈ s.toList))) →
      isErr (validate_archive_path canonB canonA entry dest) = true) ∧
    (∀ (canonB canonA : List String → Option (List String))
        (entry : List PathComponent) (dest p : List String),
      validate_archive_path canonB canonA entry dest = .ok p →
      p = dest ++ (normalizeComponents entry).toOption.getD [] ∧
      ((∃ c cd, canonB p = some c ∧ canonB dest = some cd ∧
          cd.isPrefixOf c = true) ∨
       (∃ c cd, canonA p = some c ∧ canonA dest = some cd ∧
          cd.isPrefixOf c = true))) := by
  constructor
  · intro canonB canonA entry dest h
    rcases h with h | h | h | ⟨s, hmem, hchar⟩
    · cases hn : normalizeComponents entry with
      | error e => rw [validate_err_of_norm_err hn]; rfl
      | ok ns =>
        have := normalize_err_of_bad (Or.inl h)
        rw [hn] at this
        exact absurd this (by simp [isErr])
    · cases hn : normalizeComponents entry with
      | error e => rw [validate_err_of_norm_err hn]; rfl
      | ok ns =>
        have := normalize_err_of_bad (Or.inr (Or.inl h))
        rw [hn] at this
        exact absurd this (by simp [isErr])
    · cases hn : normalizeComponents entry with
      | error e => rw [validate_err_of_norm_err hn]; rfl
      | ok ns =>
        have := normalize_err_of_bad (Or.inr (Or.inr h))
        rw [hn] at this
        exact absurd this (by simp [isErr])
    · cases hn : normalizeComponents entry with
      | error e => rw [validate_err_of_norm_err hn]; rfl
      | ok ns =>
        have hsn : s ∈ ns := normalize_ok_mem hn hmem
        have hsusp : suspiciousPath (joinSlash ns) = true := by
          rcases hchar with hc | hc
          · exact suspicious_of_char (mem_joinSlash hsn hc) (Or.inl rfl)
          · exact suspicious_of_char (mem_joinSlash hsn hc) (Or.inr rfl)
        rw [validate_err_of_susp hn hsusp]
        rfl
  · intro canonB canonA entry dest p h
    unfold validate_archive_path at h
    cases hn : normalizeComponents entry with
    | error e => rw [hn] at h; exact absurd h (by simp)
    | ok ns =>
      rw [hn] at h
      have h1 : (if suspiciousPath (joinSlash ns) then
          (Except.error "Suspicious path pattern detected" :
            Except String (List String))
        else validateCanonical canonB canonA (dest ++ ns) dest) = .ok p := h
      by_cases hs : suspiciousPath (joinSlash ns) = true
      · rw [if_pos hs] at h1
        exact absurd h1 (by simp)
      · rw [if_neg hs] at h1
        obtain ⟨hp, hdisj⟩ := validateCanonical_ok h1
        subst hp
        exact ⟨by simp [Except.toOption], hdisj⟩

/-- Witness for C2: the hostile entry `../../etc/passwd` is rejected
(whatever the filesystem looks like). -/
theorem C2_validate_archive_path_witness :
    isErr (validate_archive_path (fun _ => none) (fun _ => none)
      [PathComponent.parentDir, PathComponent.parentDir,
       PathComponent.normal "etc", PathComponent.normal "passwd"]
      ["tmp", "dest"]) = true :=
  C2_validate_archive_path.1 (fun _ => none) (fun _ => none)
    [PathComponent.parentDir, PathComponent.parentDir,
     PathComponent.normal "etc", PathComponent.normal "passwd"]
    ["tmp", "dest"] (Or.inl (by decide))

/-! ## Lemmas about the secure extractors and the theorem for claim C3 -/

theorem tarStep_ok_inv {canonB canonA : List String → Option (List String)}
    {dest : List String} {mf mt : Nat} {st st2 : ExtractState} {e : TarEntry}
    (h : tarStep canonB canonA dest mf mt st e = .ok st2) :
    st2.file_count = st.file_count + 1 ∧ st.file_count + 1 ≤ mf ∧
    st2.total_size = satAdd64 st.total_size e.size ∧ st2.total_size ≤ mt ∧
    st2.extracted.length ≤ st.extracted.length + 1 := by
  unfold tarStep at h
  by_cases h1 : st.file_count + 1 > mf
  · rw [if_pos h1] at h
    exact absurd h (by simp)
  · rw [if_neg h1] at h
    by_cases h2 : satAdd64 st.total_size e.size > mt
    · rw [if_pos h2] at h
      exact absurd h (by simp)
    · rw [if_neg h2] at h
      cases hv : validate_archive_path canonB canonA e.path dest with
      | error msg => rw [hv] at h; exact absurd h (by simp)
      | ok sp =>
        rw [hv] at h
        have h3 : (match e.etype with
          | TarEntryType.file =>
            Except.ok ({ file_count := st.file_count + 1,
                         total_size := satAdd64 st.total_size e.size,
                         extracted := st.extracted ++ [sp] } : ExtractState)
          | TarEntryType.dir =>
            Except.ok ({ file_count := st.file_count + 1,
                         total_size := satAdd64 st.total_size e.size,
                         extracted := st.extracted ++ [sp] } : ExtractState)
          | TarEntryType.other =>
            Except.ok ({ file_count := st.file_count + 1,
                         total_size := satAdd64 st.total_size e.size,
                         extracted := st.extracted } : ExtractState)) = .ok st2 := h
        cases he : e.etype with
        | file =>
          rw [he] at h3
          injection h3 with h4
          rw [← h4]
          refine ⟨rfl, by omega, rfl, ?_, ?_⟩
          · show satAdd64 st.total_size e.size ≤ mt
            omega
          · show (st.extracted ++ [sp]).length ≤ st.extracted.length + 1
            simp
        | dir =>
          rw [he] at h3
          injection h3 with h4
          rw [← h4]
          refine ⟨rfl, by omega, rfl, ?_, ?_⟩
          · show satAdd64 st.total_size e.size ≤ mt
            omega
          · show (st.extracted ++ [sp]).length ≤ st.extracted.length + 1
            simp
        | other =>
          rw [he] at h3
          injection h3 with h4
          rw [← h4]
          refine ⟨rfl, by omega, rfl, ?_, ?_⟩
          · show satAdd64 st.total_size e.size ≤ mt
            omega
          · show st.extracted.length ≤ st.extracted.length + 1
            omega

theorem tarLoop_err_of_over {canonB canonA : List String → Option (List String)}
    {dest : List String} {mf mt : Nat} :
    ∀ (entries : List TarEntry) (st : ExtractState),
      st.file_count ≤ mf → st.file_count + entries.length > mf →
      (tarLoop canonB canonA dest mf mt entries st).2.isSome = true := by
  intro entries
  induction entries with
  | nil => intro st hle hov; simp at hov; omega
  | cons e rest ih =>
    intro st hle hov
    unfold tarLoop
    cases hstep : tarStep canonB canonA dest mf mt st e with
    | error msg => rfl
    | ok st2 =>
      obtain ⟨hc, hcle, -, -, -⟩ := tarStep_ok_inv hstep
      exact ih st2 (by omega) (by simp at hov ⊢; omega)

theorem tarLoop_extracted_le {canonB canonA : List String → Option (List String)}
    {dest : List String} {mf mt : Nat} :
    ∀ (entries : List TarEntry) (st : ExtractState),
      st.extracted.length ≤ st.file_count → st.file_count ≤ mf →
      (tarLoop canonB canonA dest mf mt entries st).1.extracted.length ≤ mf := by
  intro entries
  induction entries with
  | nil => intro st hinv hle; exact le_trans hinv hle
  | cons e rest ih =>
    intro st hinv hle
    unfold tarLoop
    cases hstep : tarStep canonB canonA dest mf mt st e with
    | error msg => exact le_trans hinv hle
    | ok st2 =>
      obtain ⟨hc, hcle, -, -, hext⟩ := tarStep_ok_inv hstep
      exact ih st2 (by omega) (by omega)

theorem tarLoop_none_total {canonB canonA : List String → Option (List String)}
    {dest : List String} {mf mt : Nat} :
    ∀ (entries : List TarEntry) (st : ExtractState),
      (tarLoop canonB canonA dest mf mt entries st).2 = none →
      (tarLoop canonB canonA dest mf mt entries st).1.total_size =
        (entries.map TarEntry.size).foldl satAdd64 st.total_size ∧
      (st.total_size ≤ mt →
        (tarLoop canonB canonA dest mf mt entries st).1.total_size ≤ mt) := by
  intro entries
  induction entries with
  | nil => intro st _; exact ⟨rfl, fun h => h⟩
  | cons e rest ih =>
    intro st hnone
    unfold tarLoop at hnone ⊢
    cases hstep : tarStep canonB canonA dest mf mt st e with
    | error msg => rw [hstep] at hnone; simp at hnone
    | ok st2 =>
      rw [hstep] at hnone
      obtain ⟨-, -, htot, htle, -⟩ := tarStep_ok_inv hstep
      obtain ⟨h1, h2⟩ := ih st2 hnone
      constructor
      · rw [h1, htot]
        rfl
      · intro _
        exact h2 htle

theorem tarLoop_total_u64 {canonB canonA : List String → Option (List String)}
    {dest : List String} {mf mt : Nat} :
    ∀ (entries : List TarEntry) (st : ExtractState),
      st.total_size ≤ u64max →
      (tarLoop canonB canonA dest mf mt entries st).1.total_size ≤ u64max := by
  intro entries
  induction entries with
  | nil => intro st h; exact h
  | cons e rest ih =>
    intro st h
    unfold tarLoop
    cases hstep : tarStep canonB canonA dest mf mt st e with
    | error msg => exact h
    | ok st2 =>
      obtain ⟨-, -, htot, -, -⟩ := tarStep_ok_inv hstep
      refine ih st2 ?_
      rw [htot]
      exact min_le_right _ _

theorem zipStep_ok_inv {canonB canonA : List String → Option (List String)}
    {dest : List String} {mt : Nat} {st st2 : ExtractState} {e : ZipEntry}
    (h : zipStep canonB canonA dest mt st e = .ok st2) :
    st2.total_size = satAdd64 st.total_size e.size ∧ st2.total_size ≤ mt ∧
    st2.extracted.length = st.extracted.length + 1 := by
  unfold zipStep at h
  by_cases h2 : satAdd64 st.total_size e.size > mt
  · rw [if_pos h2] at h
    exact absurd h (by simp)
  · rw [if_neg h2] at h
    cases hv : validate_archive_path canonB canonA e.path dest with
    | error msg => rw [hv] at h; exact absurd h (by simp)
    | ok sp =>
      rw [hv] at h
      injection h with h4
      rw [← h4]
      refine ⟨rfl, ?_, ?_⟩
      · show satAdd64 st.total_size e.size ≤ mt
        omega
      · show (st.extracted ++ [sp]).length = st.extracted.length + 1
        simp

theorem zipLoop_extracted_le {canonB canonA : List String → Option (List String)}
    {dest : List String} {mt : Nat} :
    ∀ (entries : List ZipEntry) (st : ExtractState),
      (zipLoop canonB canonA dest mt entries st).1.extracted.length ≤
        st.extracted.length + entries.length := by
  intro entries
  induction entries with
  | nil => intro st; exact Nat.le_add_right _ _
  | cons e rest ih =>
    intro st
    unfold zipLoop
    cases hstep : zipStep canonB canonA dest mt st e with
    | error msg => exact Nat.le_add_right _ _
    | ok st2 =>
      obtain ⟨-, -, hext⟩ := zipStep_ok_inv hstep
      have hih : (zipLoop canonB canonA dest mt rest st2).1.extracted.length ≤
          st2.extracted.length + rest.length := ih st2
      show (zipLoop canonB canonA dest mt rest st2).1.extracted.length ≤
        st.extracted.length + (e :: rest).length
      simp only [List.length_cons]
      omega

theorem zipLoop_none_total {canonB canonA : List String → Option (List String)}
    {dest : List String} {mt : Nat} :
    ∀ (entries : List ZipEntry) (st : ExtractState),
      (zipLoop canonB canonA dest mt entries st).2 = none →
      (st.total_size ≤ mt →
        (zipLoop canonB canonA dest mt entries st).1.total_size ≤ mt) ∧
      (zipLoop canonB canonA dest mt entries st).1.total_size =
        (entries.map ZipEntry.size).foldl satAdd64 st.total_size := by
  intro entries
  induction entries with
  | nil => intro st _; exact ⟨fun h => h, rfl⟩
  | cons e rest ih =>
    intro st hnone
    unfold zipLoop at hnone ⊢
    cases hstep : zipStep canonB canonA dest mt st e with
    | error msg => rw [hstep] at hnone; simp at hnone
    | ok st2 =>
      rw [hstep] at hnone
      obtain ⟨htot, htle, -⟩ := zipStep_ok_inv hstep
      obtain ⟨h2, h1⟩ := ih st2 hnone
      constructor
      · intro _
        exact h2 htle
      · rw [h1, htot]
        rfl

theorem zipLoop_total_u64 {canonB canonA : List String → Option (List String)}
    {dest : List String} {mt : Nat} :
    ∀ (entries : List ZipEntry) (st : ExtractState),
      st.total_size ≤ u64max →
      (zipLoop canonB canonA dest mt entries st).1.total_size ≤ u64max := by
  intro entries
  induction entries with
  | nil => intro st h; exact h
  | cons e rest ih =>
    intro st h
    unfold zipLoop
    cases hstep : zipStep canonB canonA dest mt st e with
    | error msg => exact h
    | ok st2 =>
      obtain ⟨htot, -, -⟩ := zipStep_ok_inv hstep
      refine ih st2 ?_
      rw [htot]
      exact min_le_right _ _

/-- C3: both secure extractors abort once the entry count exceeds
`max_files` — the tar extractor counting incrementally so at most
`max_files` entries are ever materialized, and the zip extractor
checking the count up front before materializing anything — and both
abort when the saturating accumulation of the declared uncompressed
sizes exceeds `max_total_size`; the accumulator is a saturating sum and
never exceeds `u64::MAX` (no wraparound). -/
theorem C3_extraction_limits :
    (∀ (canonB canonA : List String → Option (List String))
        (dest : List String) (mf mt : Nat) (entries : List TarEntry),
      entries.length > mf →
      (extract_tar_gz_secure canonB canonA dest mf mt entries).2.isSome = true) ∧
    (∀ canonB canonA dest mf mt (entries : List TarEntry),
      (extract_tar_gz_secure canonB canonA dest mf mt entries).1.extracted.length ≤ mf) ∧
    (∀ canonB canonA dest mf mt (entries : List TarEntry),
      (entries.map TarEntry.size).foldl satAdd64 0 > mt →
      (extract_tar_gz_secure canonB canonA dest mf mt entries).2.isSome = true) ∧
    (∀ canonB canonA dest mf mt (entries : List TarEntry),
      (extract_tar_gz_secure canonB canonA dest mf mt entries).1.total_size ≤ u64max) ∧
    (∀ (canonB canonA : List String → Option (List String))
        (dest : List String) (mf mt : Nat) (entries : List ZipEntry),
      entries.length > mf →
      (extract_zip_secure canonB canonA dest mf mt entries).2.isSome = true ∧
      (extract_zip_secure canonB canonA dest mf mt entries).1.extracted = []) ∧
    (∀ canonB canonA dest mf mt (entries : List ZipEntry),
      (extract_zip_secure canonB canonA dest mf mt entries).1.extracted.length ≤ mf) ∧
    (∀ canonB canonA dest mf mt (entries : List ZipEntry),
      (entries.map ZipEntry.size).foldl satAdd64 0 > mt →
      (extract_zip_secure canonB canonA dest mf mt entries).2.isSome = true) := by
  refine ⟨?_, ?_, ?_, ?_, ?_, ?_, ?_⟩
  · intro canonB canonA dest mf mt entries hov
    exact tarLoop_err_of_over entries _ (Nat.zero_le mf) (by simpa using hov)
  · intro canonB canonA dest mf mt entries
    exact tarLoop_extracted_le entries _ (Nat.le_refl 0) (Nat.zero_le mf)
  · intro canonB canonA dest mf mt entries hov
    cases hres : (extract_tar_gz_secure canonB canonA dest mf mt entries).2 with
    | some msg => rfl
    | none =>
      exfalso
      obtain ⟨h1, h2⟩ := @tarLoop_none_total canonB canonA dest mf mt entries
        { file_count := 0, total_size := 0, extracted := [] } hres
      have h3 := h2 (Nat.zero_le mt)
      rw [h1] at h3
      have h4 : (entries.map TarEntry.size).foldl satAdd64 0 ≤ mt := h3
      omega
  · intro canonB canonA dest mf mt entries
    exact tarLoop_total_u64 entries _ (Nat.zero_le u64max)
  · intro canonB canonA dest mf mt entries hov
    unfold extract_zip_secure
    rw [if_pos hov]
    exact ⟨rfl, rfl⟩
  · intro canonB canonA dest mf mt entries
    unfold extract_zip_secure
    by_cases hov : entries.length > mf
    · rw [if_pos hov]
      simp
    · rw [if_neg hov]
      have h1 : (zipLoop canonB canonA dest mt entries
          { file_count := 0, total_size := 0, extracted := [] }).1.extracted.length ≤
          0 + entries.length :=
        zipLoop_extracted_le entries _
      show (zipLoop canonB canonA dest mt entries
        { file_count := 0, total_size := 0, extracted := [] }).1.extracted.length ≤ mf
      omega
  · intro canonB canonA dest mf mt entries hov
    unfold extract_zip_secure
    by_cases hcnt : entries.length > mf
    · rw [if_pos hcnt]
      rfl
    · rw [if_neg hcnt]
      cases hres : (zipLoop canonB canonA dest mt entries
          { file_count := 0, total_size := 0, extracted := [] }).2 with
      | some msg => rfl
      | none =>
        exfalso
        obtain ⟨h2, h1⟩ := zipLoop_none_total entries
          { file_count := 0, total_size := 0, extracted := [] } hres
        have h3 := h2 (Nat.zero_le mt)
        rw [h1] at h3
        have h4 : (entries.map ZipEntry.size).foldl satAdd64 0 ≤ mt := h3
        omega

/-- Witness for C3: a single-entry archive against a zero file limit is
rejected. -/
theorem C3_extraction_limits_witness :
    (extract_tar_gz_secure (fun _ => none) (fun _ => none) ["dest"] 0 100
      [{ path := [PathComponent.normal "a"], size := 1,
         etype := TarEntryType.file }]).2.isSome = true :=
  C3_extraction_limits.1 (fun _ => none) (fun _ => none) ["dest"] 0 100
    [{ path := [PathComponent.normal "a"], size := 1,
       etype := TarEntryType.file }] (by decide)

/-! ## Theorems for claims C1 and C4 -/

/-- C1 (code-bug evidence): installing a tar archive whose single entry
is `../../etc/passwd` through `extract_proton` or `extract_dxvk`
SUCCEEDS — the tar crate's `unpack`, to which they delegate without any
validation of their own, silently skips the traversal entry, so nothing
aborts and the installation completes with an empty destination —
whereas the repository's own `extract_tar_gz_secure` (never called by
`install_runner`) aborts the whole archive on that entry before
materializing anything. -/
theorem C1_legacy_extract_no_abort :
    extract_proton ["home", "cellar", "runners"] "GE-Proton9-1"
        [[PathComponent.parentDir, PathComponent.parentDir,
          PathComponent.normal "etc", PathComponent.normal "passwd"]] =
      .ok (["home", "cellar", "runners", "proton", "GE-Proton9-1"], []) ∧
    extract_dxvk ["home", "cellar", "runners"] "2.3.1"
        [[PathComponent.parentDir, PathComponent.parentDir,
          PathComponent.normal "etc", PathComponent.normal "passwd"]] =
      .ok (["home", "cellar", "runners", "dxvk", "v2.3.1"], []) ∧
    (extract_tar_gz_secure (fun _ => none) (fun _ => none)
        ["home", "cellar", "runners", "proton", "GE-Proton9-1"] 1000 10737418240
        [{ path := [PathComponent.parentDir, PathComponent.parentDir,
                    PathComponent.normal "etc", PathComponent.normal "passwd"],
           size := 10, etype := TarEntryType.file }]).2 =
      some "Path traversal attempt detected" ∧
    (extract_tar_gz_secure (fun _ => none) (fun _ => none)
        ["home", "cellar", "runners", "proton", "GE-Proton9-1"] 1000 10737418240
        [{ path := [PathComponent.parentDir, PathComponent.parentDir,
                    PathComponent.normal "etc", PathComponent.normal "passwd"],
           size := 10, etype := TarEntryType.file }]).1.extracted = [] := by
  refine ⟨by rfl, by rfl, by rfl, by rfl⟩

/-- C4 (code-bug evidence): the shared `download_from_github` (the DXVK
path) enforces all three size checks — whenever it succeeds, the asset
was within the ceiling, any reported content length equalled the
declared size, and the received byte count equalled the declared size,
and only then was the file written — while `download_ge_proton`
performs none of them: with declared size 500 MiB and 500 MiB + 1
received bytes it returns Ok and writes the mismatched body to the
final temp-file name, exactly where the shared fetcher fails with a
size mismatch and writes nothing. -/
theorem C4_download_size_checks :
    (∀ (maxd : Nat) (filter : String → Bool) (release : GitHubRelease)
        (t : DownloadTransport) (w : String × Nat) (asset : GitHubAsset),
      release.assets.find? (fun a => filter a.name) = some asset →
      download_from_github maxd filter release t = .ok w →
      asset.size ≤ maxd ∧
      (t.content_length = none ∨ t.content_length = some asset.size) ∧
      t.body_len = asset.size ∧ w = (asset.name, t.body_len)) ∧
    download_ge_proton
        { tag_name := "GE-Proton9-1", name := "GE-Proton9-1",
          assets := [{ name := "GE-Proton9-1.tar.gz",
                       browser_download_url := "u", size := 524288000 }] }
        { status_success := true, content_length := some 524288000,
          body_len := 524288001 } =
      .ok ("GE-Proton9-1.tar.gz", 524288001) ∧
    isErr (download_from_github 1073741824 (fun a => strEndsWith ".tar.gz" a)
        { tag_name := "GE-Proton9-1", name := "GE-Proton9-1",
          assets := [{ name := "GE-Proton9-1.tar.gz",
                       browser_download_url := "u", size := 524288000 }] }
        { status_success := true, content_length := some 524288000,
          body_len := 524288001 }) = true := by
  refine ⟨?_, by rfl, by rfl⟩
  intro maxd filter release t w asset hfind h
  unfold download_from_github at h
  rw [hfind] at h
  have h1 : (if asset.size > maxd then
      (Except.error "Asset too large" : Except String (String × Nat))
    else if !t.status_success then .error "Failed to download"
    else if contentLengthMismatch t asset.size then .error "Content length mismatch"
    else if t.body_len ≠ asset.size then .error "Downloaded size mismatch"
    else .ok (asset.name, t.body_len)) = .ok w := h
  by_cases hmax : asset.size > maxd
  · rw [if_pos hmax] at h1
    exact absurd h1 (by simp)
  · rw [if_neg hmax] at h1
    by_cases hst : (!t.status_success) = true
    · rw [if_pos hst] at h1
      exact absurd h1 (by simp)
    · rw [if_neg hst] at h1
      by_cases hcl : contentLengthMismatch t asset.size = true
      · rw [if_pos hcl] at h1
        exact absurd h1 (by simp)
      · rw [if_neg hcl] at h1
        by_cases hbl : t.body_len ≠ asset.size
        · rw [if_pos hbl] at h1
          exact absurd h1 (by simp)
        · rw [if_neg hbl] at h1
          injection h1 with h2
          refine ⟨by omega, ?_, by omega, h2.symm⟩
          unfold contentLengthMismatch at hcl
          cases hc : t.content_length with
          | none => exact Or.inl rfl
          | some cl =>
            rw [hc] at hcl
            simp at hcl
            rw [hcl]
            exact Or.inr rfl

/-- Witness for C4: a well-sized transfer through the shared fetcher
satisfies every check. -/
theorem C4_download_size_checks_witness :
    (524288000 : Nat) ≤ 1073741824 ∧
    ((some 524288000 : Option Nat) = none ∨
      (some 524288000 : Option Nat) = some 524288000) ∧
    (524288000 : Nat) = 524288000 ∧
    ("GE-Proton9-1.tar.gz", (524288000 : Nat)) = ("GE-Proton9-1.tar.gz", 524288000) :=
  C4_download_size_checks.1 1073741824 (fun a => strEndsWith ".tar.gz" a)
    { tag_name := "GE-Proton9-1", name := "GE-Proton9-1",
      assets := [{ name := "GE-Proton9-1.tar.gz",
                   browser_download_url := "u", size := 524288000 }] }
    { status_success := true, content_length := some 524288000,
      body_len := 524288000 }
    ("GE-Proton9-1.tar.gz", 524288000)
    { name := "GE-Proton9-1.tar.gz", browser_download_url := "u",
      size := 524288000 }
    (by rfl) (by rfl)

end Cellar
